import Mathlib

/-! Verification of the copilot-api request-dispatch pipeline against its
natural-language specification.  The definitions below are a shallow
embedding of: the LRU response cache (`src/lib/request-cache`), the retry
utility (`src/lib/retry.ts`), the rate-limit gate (`checkRateLimit`), the
Copilot token refresh (`src/lib/token.ts`) and the OpenAI-to-Anthropic
streaming translator (`src/routes/messages/stream-translation.ts`).
JavaScript `Map`s are modelled as association lists, the doubly linked
LRU list as a plain list whose head is the most-recently-used key, wall
clock times are explicit `Int` millisecond parameters, and `Math.random`
draws are explicit rational parameters. -/

namespace RequestCache

/-- One memoized upstream answer (interface `CacheEntry`); the response
payload is opaque, hence the type parameter. -/
structure CacheEntry (α : Type) where
  key : String
  response : α
  model : String
  inputTokens : Nat
  outputTokens : Nat
  createdAt : Int
  lastAccessed : Int
  hits : Nat
  deriving Repr, DecidableEq

/-- The entry record built inline by `setCachedResponse`. -/
def mkEntry {α : Type} (k : String) (resp : α) (model : String)
    (inT outT : Nat) (now : Int) : CacheEntry α :=
  { key := k, response := resp, model := model, inputTokens := inT,
    outputTokens := outT, createdAt := now, lastAccessed := now, hits := 0 }

/-- Cache configuration (interface `CacheConfig`). -/
structure CacheConfig where
  enabled : Bool
  maxSize : Nat
  ttlSeconds : Nat
  deriving Repr, DecidableEq

/-- The module-level mutable state of `request-cache`: the key-to-entry
map (`cache`), the recency list (`lruNodes`/`lruHead`/`lruTail`, head =
most recently used), the configuration and the statistics counters. -/
structure CacheState (α : Type) where
  cache : List (String × CacheEntry α)
  lru : List String
  cacheConfig : CacheConfig
  hits : Nat
  misses : Nat
  savedTokens : Nat
  isDirty : Bool
  deriving Repr, DecidableEq

/-- Lookup in the key-to-entry map (`cache.get(key)`). -/
def mapGet {α : Type} (k : String) :
    List (String × CacheEntry α) → Option (CacheEntry α)
  | [] => none
  | p :: rest => if p.1 = k then some p.2 else mapGet k rest

/-- Update or insert in the key-to-entry map (`cache.set(key, entry)`). -/
def mapSet {α : Type} (k : String) (v : CacheEntry α)
    (m : List (String × CacheEntry α)) : List (String × CacheEntry α) :=
  if (mapGet k m).isSome then
    m.map (fun p => if p.1 = k then (k, v) else p)
  else m ++ [(k, v)]

/-- Removal from the key-to-entry map (`cache.delete(key)`). -/
def mapDelete {α : Type} (k : String) :
    List (String × CacheEntry α) → List (String × CacheEntry α)
  | [] => []
  | p :: rest => if p.1 = k then mapDelete k rest else p :: mapDelete k rest

/-- Keys of the map, in map order. -/
def keysOf {α : Type} (m : List (String × CacheEntry α)) : List String :=
  m.map Prod.fst

/-- Source `moveToFront`: detach a node and re-attach it at the head;
a no-op when the node already is the head. -/
def moveToFront (k : String) (lru : List String) : List String :=
  if lru.head? = some k then lru else k :: lru.erase k

/-- Source `addToFront`: new node becomes the head. -/
def addToFront (k : String) (lru : List String) : List String :=
  k :: lru

/-- Source `removeTail`: unlink and return the least-recently-used key. -/
def removeTail (lru : List String) : Option String × List String :=
  match lru.getLast? with
  | none => (none, lru)
  | some k => (some k, lru.dropLast)

/-- Source `removeNode`: unlink a specific key. -/
def removeNode (k : String) (lru : List String) : List String :=
  lru.erase k

/-- The `while (cache.size > cacheConfig.maxSize)` loop of `evictLRU`,
with explicit fuel; one fuel unit per loop iteration.  Each iteration
removes one recency node, so `lru.length` fuel reproduces the loop
exactly (when the recency list is exhausted the source breaks out with
the state unchanged, which is also what fuel exhaustion yields). -/
def evictLoop {α : Type} : Nat → CacheState α → CacheState α
  | 0, s => s
  | fuel + 1, s =>
    if s.cache.length > s.cacheConfig.maxSize then
      match removeTail s.lru with
      | (none, _) => s
      | (some k, lru2) =>
        evictLoop fuel
          { s with lru := lru2, cache := mapDelete k s.cache, isDirty := true }
    else s

/-- Source `evictLRU`. -/
def evictLRU {α : Type} (s : CacheState α) : CacheState α :=
  evictLoop s.lru.length s

/-- Source `getCachedResponse(key)`; `now` is the value of `Date.now()`. -/
def getCachedResponse {α : Type} (k : String) (now : Int) (s : CacheState α) :
    Option (CacheEntry α) × CacheState α :=
  if s.cacheConfig.enabled = false then (none, s)
  else
    match mapGet k s.cache with
    | none => (none, { s with misses := s.misses + 1 })
    | some entry =>
      if now - entry.createdAt > (s.cacheConfig.ttlSeconds : Int) * 1000 then
        (none,
         { s with cache := mapDelete k s.cache, lru := removeNode k s.lru,
                  misses := s.misses + 1, isDirty := true })
      else
        let entry2 : CacheEntry α :=
          { entry with lastAccessed := now, hits := entry.hits + 1 }
        (some entry2,
         { s with cache := mapSet k entry2 s.cache,
                  hits := s.hits + 1,
                  savedTokens := s.savedTokens + entry.inputTokens + entry.outputTokens,
                  isDirty := true,
                  lru := if k ∈ s.lru then moveToFront k s.lru else s.lru })

/-- Source `setCachedResponse({key, response, model, inputTokens,
outputTokens})`; `now` is the value of `Date.now()`. -/
def setCachedResponse {α : Type} (k : String) (resp : α) (model : String)
    (inputTokens outputTokens : Nat) (now : Int) (s : CacheState α) :
    CacheState α :=
  if s.cacheConfig.enabled = false then s
  else
    let entry : CacheEntry α := mkEntry k resp model inputTokens outputTokens now
    let lru2 :=
      if (mapGet k s.cache).isSome then
        (if k ∈ s.lru then moveToFront k s.lru else s.lru)
      else addToFront k s.lru
    evictLRU { s with cache := mapSet k entry s.cache, lru := lru2, isDirty := true }

/-- Well-formedness of the cache state: the map has no duplicate keys and
the recency list carries exactly the mapped keys, each once. -/
structure CacheWF {α : Type} (s : CacheState α) : Prop where
  nodupKeys : (keysOf s.cache).Nodup
  nodupLru : s.lru.Nodup
  mem_iff : ∀ k, k ∈ s.lru ↔ k ∈ keysOf s.cache

theorem mapGet_isSome_iff {α : Type} (k : String)
    (m : List (String × CacheEntry α)) :
    (mapGet k m).isSome ↔ k ∈ keysOf m := by
  induction m with
  | nil => simp [mapGet, keysOf]
  | cons p rest ih =>
    by_cases h : p.1 = k
    · simp [mapGet, keysOf, h]
    · simp only [mapGet, keysOf, h, if_false, List.map_cons, List.mem_cons]
      rw [ih]
      constructor
      · intro hm; exact Or.inr hm
      · rintro (hm | hm)
        · exact absurd hm.symm h
        · exact hm

theorem mapGet_eq_none_iff {α : Type} (k : String)
    (m : List (String × CacheEntry α)) :
    mapGet k m = none ↔ k ∉ keysOf m := by
  rw [← mapGet_isSome_iff, Option.not_isSome_iff_eq_none]

theorem mapGet_append {α : Type} (k : String)
    (m₁ m₂ : List (String × CacheEntry α)) :
    mapGet k (m₁ ++ m₂) =
      match mapGet k m₁ with
      | some v => some v
      | none => mapGet k m₂ := by
  induction m₁ with
  | nil => simp [mapGet]
  | cons p rest ih =>
    by_cases h : p.1 = k <;> simp [mapGet, h, ih]

theorem mapSet_of_not_mem {α : Type} (k : String) (v : CacheEntry α)
    (m : List (String × CacheEntry α)) (h : mapGet k m = none) :
    mapSet k v m = m ++ [(k, v)] := by
  simp [mapSet, h]

theorem mapGet_mapDelete {α : Type} (k k' : String)
    (m : List (String × CacheEntry α)) :
    mapGet k (mapDelete k' m) = if k = k' then none else mapGet k m := by
  induction m with
  | nil => simp [mapGet, mapDelete]
  | cons p rest ih =>
    by_cases hk : k = k'
    · subst hk
      by_cases h : p.1 = k <;> simp [mapGet, mapDelete, h, ih]
    · by_cases h : p.1 = k'
      · have hpk : ¬ p.1 = k := by
          intro hc; exact hk (hc ▸ h.symm ▸ rfl)
        have hkk : ¬ k' = k := fun hc => hk hc.symm
        simp [mapGet, mapDelete, h, hpk, ih, hk, hkk]
      · by_cases hp : p.1 = k <;> simp [mapGet, mapDelete, h, hp, ih, hk]

theorem mapDelete_append {α : Type} (k : String)
    (m₁ m₂ : List (String × CacheEntry α)) :
    mapDelete k (m₁ ++ m₂) = mapDelete k m₁ ++ mapDelete k m₂ := by
  induction m₁ with
  | nil => simp [mapDelete]
  | cons p rest ih =>
    by_cases h : p.1 = k <;> simp [mapDelete, h, ih]

theorem mapDelete_of_not_mem {α : Type} (k : String)
    (m : List (String × CacheEntry α)) (h : k ∉ keysOf m) :
    mapDelete k m = m := by
  induction m with
  | nil => simp [mapDelete]
  | cons p rest ih =>
    simp only [keysOf, List.map_cons, List.mem_cons, not_or] at h
    have hp : ¬ p.1 = k := fun hc => h.1 hc.symm
    simp [mapDelete, hp, ih h.2]

theorem mapDelete_length_of_mem {α : Type} (k : String)
    (m : List (String × CacheEntry α)) (hn : (keysOf m).Nodup)
    (hm : k ∈ keysOf m) :
    (mapDelete k m).length + 1 = m.length := by
  induction m with
  | nil => simp [keysOf] at hm
  | cons p rest ih =>
    simp only [keysOf, List.map_cons, List.nodup_cons] at hn
    rcases hn with ⟨hp, hrest⟩
    by_cases h : p.1 = k
    · subst h
      simp [mapDelete, mapDelete_of_not_mem _ _ hp]
    · have hm' : k ∈ keysOf rest := by
        simp only [keysOf, List.map_cons, List.mem_cons] at hm
        rcases hm with hm | hm
        · exact absurd hm.symm h
        · exact hm
      have := ih hrest hm'
      simp only [mapDelete, h, if_false, List.length_cons]
      omega

theorem mapGet_mapSet_self {α : Type} (k : String) (v : CacheEntry α)
    (m : List (String × CacheEntry α)) :
    mapGet k (mapSet k v m) = some v := by
  by_cases hs : (mapGet k m).isSome
  · simp only [mapSet, hs, if_true]
    induction m with
    | nil => simp [mapGet] at hs
    | cons p rest ih =>
      by_cases h : p.1 = k
      · simp [mapGet, h]
      · simp only [mapGet, h, if_false] at hs
        simp [mapGet, h, ih hs]
  · rw [Option.not_isSome_iff_eq_none] at hs
    rw [mapSet_of_not_mem k v m hs, mapGet_append, hs]
    simp [mapGet]

theorem mapGet_replace_ne {α : Type} (k k' : String) (v : CacheEntry α)
    (m : List (String × CacheEntry α)) (hne : ¬ k' = k) :
    mapGet k' (m.map fun p => if p.1 = k then (k, v) else p) = mapGet k' m := by
  induction m with
  | nil => rfl
  | cons p rest ih =>
    by_cases h : p.1 = k
    · have hkk : ¬ k = k' := fun hc => hne hc.symm
      have hp' : ¬ p.1 = k' := by rw [h]; exact hkk
      simp [mapGet, h, hkk, hp', ih]
    · simp [mapGet, h, ih]

theorem mapGet_mapSet_ne {α : Type} (k k' : String) (v : CacheEntry α)
    (m : List (String × CacheEntry α)) (hne : ¬ k' = k) :
    mapGet k' (mapSet k v m) = mapGet k' m := by
  unfold mapSet
  by_cases hs : (mapGet k m).isSome
  · rw [if_pos hs, mapGet_replace_ne k k' v m hne]
  · have hkk : ¬ k = k' := fun hc => hne hc.symm
    rw [if_neg hs, mapGet_append]
    cases hg : mapGet k' m with
    | some w => rfl
    | none => simp [mapGet, hkk]

theorem evictLoop_cacheConfig {α : Type} (fuel : Nat) (s : CacheState α) :
    (evictLoop fuel s).cacheConfig = s.cacheConfig := by
  induction fuel generalizing s with
  | zero => rfl
  | succ n ih =>
    simp only [evictLoop]
    by_cases h : s.cache.length > s.cacheConfig.maxSize
    · simp only [h, if_true]
      cases hrt : removeTail s.lru with
      | mk fst snd =>
        cases fst with
        | none => rfl
        | some k => exact ih _
    · simp [h]

theorem evictLoop_mapGet_some {α : Type} (fuel : Nat) (s : CacheState α)
    (k : String) (e : CacheEntry α)
    (h : mapGet k (evictLoop fuel s).cache = some e) :
    mapGet k s.cache = some e := by
  induction fuel generalizing s with
  | zero => exact h
  | succ n ih =>
    simp only [evictLoop] at h
    by_cases hc : s.cache.length > s.cacheConfig.maxSize
    · simp only [hc, if_true] at h
      cases hrt : removeTail s.lru with
      | mk fst snd =>
        rw [hrt] at h
        cases fst with
        | none => exact h
        | some k' =>
          have h2 := ih _ h
          simp only at h2
          rw [mapGet_mapDelete] at h2
          by_cases hkk : k = k'
          · simp [hkk] at h2
          · simpa [hkk] using h2
    · simpa [hc] using h

theorem setCachedResponse_cacheConfig {α : Type} (k : String) (resp : α)
    (model : String) (inputTokens outputTokens : Nat) (now : Int)
    (s : CacheState α) :
    (setCachedResponse k resp model inputTokens outputTokens now s).cacheConfig
      = s.cacheConfig := by
  unfold setCachedResponse evictLRU
  cases hen : s.cacheConfig.enabled with
  | false => simp
  | true => simp [hen, evictLoop_cacheConfig]

theorem setCachedResponse_mapGet_self {α : Type} (k : String) (resp : α)
    (model : String) (inputTokens outputTokens : Nat) (now : Int)
    (s : CacheState α) (e : CacheEntry α)
    (hen : s.cacheConfig.enabled = true)
    (h : mapGet k (setCachedResponse k resp model inputTokens outputTokens now s).cache
          = some e) :
    e = mkEntry k resp model inputTokens outputTokens now := by
  unfold setCachedResponse evictLRU at h
  simp only [hen] at h
  rw [if_neg (by simp)] at h
  have h2 := evictLoop_mapGet_some _ _ _ _ h
  simp only at h2
  rw [mapGet_mapSet_self] at h2
  exact (Option.some_inj.mp h2).symm

theorem getCachedResponse_hit {α : Type} (k : String) (now : Int)
    (s : CacheState α) (e : CacheEntry α)
    (hen : s.cacheConfig.enabled = true)
    (hm : mapGet k s.cache = some e)
    (hfresh : ¬ (now - e.createdAt > (s.cacheConfig.ttlSeconds : Int) * 1000)) :
    getCachedResponse k now s =
      (some { e with lastAccessed := now, hits := e.hits + 1 },
       { s with cache := mapSet k { e with lastAccessed := now, hits := e.hits + 1 } s.cache,
                hits := s.hits + 1,
                savedTokens := s.savedTokens + e.inputTokens + e.outputTokens,
                isDirty := true,
                lru := if k ∈ s.lru then moveToFront k s.lru else s.lru }) := by
  unfold getCachedResponse
  simp only [hen]
  rw [if_neg (by simp), hm]
  dsimp only
  rw [if_neg hfresh]

theorem getCachedResponse_expired {α : Type} (k : String) (now : Int)
    (s : CacheState α) (e : CacheEntry α)
    (hen : s.cacheConfig.enabled = true)
    (hm : mapGet k s.cache = some e)
    (hexp : now - e.createdAt > (s.cacheConfig.ttlSeconds : Int) * 1000) :
    getCachedResponse k now s =
      (none,
       { s with cache := mapDelete k s.cache, lru := removeNode k s.lru,
                misses := s.misses + 1, isDirty := true }) := by
  unfold getCachedResponse
  simp only [hen]
  rw [if_neg (by simp), hm]
  dsimp only
  rw [if_pos hexp]

/-- C1.  On an enabled cache, an entry stored by `setCachedResponse` and
not subsequently evicted is returned by `getCachedResponse` of the same
key while strictly less than the TTL has elapsed, and once its age
exceeds the TTL the same lookup misses and purges the entry. -/
theorem cache_put_get_ttl {α : Type} (s : CacheState α) (k model : String)
    (resp : α) (inputTokens outputTokens : Nat) (t t' : Int)
    (e : CacheEntry α)
    (hen : s.cacheConfig.enabled = true)
    (hkept :
      mapGet k (setCachedResponse k resp model inputTokens outputTokens t s).cache
        = some e) :
    (t' - t < (s.cacheConfig.ttlSeconds : Int) * 1000 →
      ∃ e2, (getCachedResponse k t'
          (setCachedResponse k resp model inputTokens outputTokens t s)).1 = some e2
        ∧ e2.response = resp ∧ e2.createdAt = t)
    ∧ (t' - t > (s.cacheConfig.ttlSeconds : Int) * 1000 →
        (getCachedResponse k t'
            (setCachedResponse k resp model inputTokens outputTokens t s)).1 = none
        ∧ mapGet k ((getCachedResponse k t'
            (setCachedResponse k resp model inputTokens outputTokens t s)).2).cache
          = none) := by
  have hee := setCachedResponse_mapGet_self k resp model inputTokens outputTokens t s e hen hkept
  subst hee
  have hcfg := setCachedResponse_cacheConfig k resp model inputTokens outputTokens t s
  have hen2 : (setCachedResponse k resp model inputTokens outputTokens t s).cacheConfig.enabled = true := by
    rw [hcfg]; exact hen
  constructor
  · intro hfresh
    have hnotexp : ¬ (t' - t
        > ((setCachedResponse k resp model inputTokens outputTokens t s).cacheConfig.ttlSeconds : Int) * 1000) := by
      rw [hcfg]
      omega
    rw [getCachedResponse_hit k t' _ _ hen2 hkept hnotexp]
    exact ⟨_, rfl, rfl, rfl⟩
  · intro hexp
    have hexp2 : t' - t
        > ((setCachedResponse k resp model inputTokens outputTokens t s).cacheConfig.ttlSeconds : Int) * 1000 := by
      rw [hcfg]
      omega
    rw [getCachedResponse_expired k t' _ _ hen2 hkept hexp2]
    refine ⟨rfl, ?_⟩
    simp only
    rw [mapGet_mapDelete]
    simp

/-- An empty enabled cache state used to witness C1 concretely. -/
def demoCacheState : CacheState Nat :=
  { cache := [], lru := [],
    cacheConfig := { enabled := true, maxSize := 10, ttlSeconds := 3600 },
    hits := 0, misses := 0, savedTokens := 0, isDirty := false }

/-- The entry that storing response `7` under key `"k"` at time 0 creates. -/
def demoCacheEntry : CacheEntry Nat :=
  { key := "k", response := 7, model := "m", inputTokens := 1,
    outputTokens := 2, createdAt := 0, lastAccessed := 0, hits := 0 }

set_option maxRecDepth 4000 in
/-- Witness for C1 at a concrete store followed by a fresh lookup. -/
theorem cache_put_get_ttl_witness :
    demoCacheState.cacheConfig.enabled = true
    ∧ mapGet "k" (setCachedResponse "k" 7 "m" 1 2 0 demoCacheState).cache
        = some demoCacheEntry
    ∧ ((100 : Int) - 0 < (demoCacheState.cacheConfig.ttlSeconds : Int) * 1000 →
        ∃ e2, (getCachedResponse "k" 100
            (setCachedResponse "k" 7 "m" 1 2 0 demoCacheState)).1 = some e2
          ∧ e2.response = 7 ∧ e2.createdAt = 0) := by
  refine ⟨rfl, by rfl, ?_⟩
  exact (cache_put_get_ttl demoCacheState "k" "m" 7 1 2 0 100
    demoCacheEntry rfl (by rfl)).1

theorem evictLoop_of_le {α : Type} (fuel : Nat) (s : CacheState α)
    (h : ¬ s.cache.length > s.cacheConfig.maxSize) : evictLoop fuel s = s := by
  cases fuel with
  | zero => rfl
  | succ n => simp [evictLoop, h]

theorem lru_length_eq {α : Type} (s : CacheState α) (wf : CacheWF s) :
    s.lru.length = s.cache.length := by
  have hperm : s.lru.Perm (keysOf s.cache) :=
    (List.perm_ext_iff_of_nodup wf.nodupLru wf.nodupKeys).mpr wf.mem_iff
  have hlen := hperm.length_eq
  simpa [keysOf] using hlen

theorem mem_of_getLast?_eq {l : List String} {x : String}
    (h : l.getLast? = some x) : x ∈ l := by
  have hx : x ∈ l.getLast? := Option.mem_def.mpr h
  obtain ⟨hne, hxl⟩ := List.mem_getLast?_eq_getLast hx
  rw [hxl]
  exact List.getLast_mem hne

theorem evictLoop_step {α : Type} (fuel : Nat) (s s2 : CacheState α)
    (hgt : s.cache.length > s.cacheConfig.maxSize)
    (k : String) (lru2 : List String)
    (hrt : removeTail s.lru = (some k, lru2))
    (hs2 : s2 = { s with lru := lru2, cache := mapDelete k s.cache,
                         isDirty := true }) :
    evictLoop (fuel + 1) s = evictLoop fuel s2 := by
  subst hs2
  simp only [evictLoop, hgt, if_true, hrt]

theorem setCachedResponse_eq_of_fresh {α : Type} (k : String) (resp : α)
    (model : String) (inT outT : Nat) (now : Int) (s : CacheState α)
    (hen : s.cacheConfig.enabled = true) (hfresh : mapGet k s.cache = none) :
    setCachedResponse k resp model inT outT now s
      = evictLoop (s.lru.length + 1)
          { s with cache := s.cache ++ [(k, mkEntry k resp model inT outT now)],
                   lru := k :: s.lru, isDirty := true } := by
  have hnotsome : ¬ (mapGet k s.cache).isSome = true := by
    rw [hfresh]
    simp
  unfold setCachedResponse evictLRU
  rw [if_neg (by rw [hen]; simp)]
  simp only [hnotsome, if_false, addToFront, mapSet_of_not_mem _ _ _ hfresh,
    Bool.false_eq_true]
  simp

theorem setCachedResponse_evicts_lru {α : Type} (s : CacheState α)
    (k model : String) (resp : α) (inT outT : Nat) (now : Int)
    (wf : CacheWF s) (hen : s.cacheConfig.enabled = true)
    (hpos : 0 < s.cacheConfig.maxSize)
    (hfull : s.cache.length = s.cacheConfig.maxSize)
    (hfresh : mapGet k s.cache = none) :
    ∃ tailKey, s.lru.getLast? = some tailKey ∧ ¬ tailKey = k
      ∧ (setCachedResponse k resp model inT outT now s).cache.length
          = s.cacheConfig.maxSize
      ∧ ∀ k', mapGet k' (setCachedResponse k resp model inT outT now s).cache
          = if k' = k then some (mkEntry k resp model inT outT now)
            else if k' = tailKey then none
            else mapGet k' s.cache := by
  have hlru_len : s.lru.length = s.cache.length := lru_length_eq s wf
  have hlru_ne : s.lru ≠ [] := by
    intro hc
    rw [hc] at hlru_len
    simp at hlru_len
    omega
  have htk : s.lru.getLast? = some (s.lru.getLast hlru_ne) :=
    List.getLast?_eq_getLast_of_ne_nil hlru_ne
  set tk := s.lru.getLast hlru_ne with htkdef
  have htkmem : tk ∈ s.lru := mem_of_getLast?_eq htk
  have htkkeys : tk ∈ keysOf s.cache := (wf.mem_iff tk).mp htkmem
  have hkne : ¬ tk = k := by
    intro hc
    rw [mapGet_eq_none_iff] at hfresh
    exact hfresh (hc ▸ htkkeys)
  have hnotsome : ¬ (mapGet k s.cache).isSome = true := by
    rw [hfresh]
    simp
  have happend : mapSet k (mkEntry k resp model inT outT now) s.cache
      = s.cache ++ [(k, mkEntry k resp model inT outT now)] :=
    mapSet_of_not_mem _ _ _ hfresh
  have hrt : removeTail (k :: s.lru) = (some tk, k :: s.lru.dropLast) := by
    unfold removeTail
    cases hsl : s.lru with
    | nil => exact absurd hsl hlru_ne
    | cons b t =>
      rw [hsl] at htk
      rw [List.getLast?_cons_cons, htk, List.dropLast_cons₂]
  have hdel : mapDelete tk (s.cache ++ [(k, mkEntry k resp model inT outT now)])
      = mapDelete tk s.cache ++ [(k, mkEntry k resp model inT outT now)] := by
    rw [mapDelete_append]
    congr 1
    apply mapDelete_of_not_mem
    simp [keysOf, hkne]
  have hlen2 : (mapDelete tk s.cache).length + 1 = s.cache.length :=
    mapDelete_length_of_mem tk s.cache wf.nodupKeys htkkeys
  have hgt : (({ s with
      cache := s.cache ++ [(k, mkEntry k resp model inT outT now)],
      lru := k :: s.lru,
      isDirty := true } : CacheState α)).cache.length
        > (({ s with
      cache := s.cache ++ [(k, mkEntry k resp model inT outT now)],
      lru := k :: s.lru,
      isDirty := true } : CacheState α)).cacheConfig.maxSize := by
    show (s.cache ++ [(k, mkEntry k resp model inT outT now)]).length
        > s.cacheConfig.maxSize
    rw [List.length_append, hfull]
    simp
  have hs2 : ({ s with
      cache := mapDelete tk s.cache ++ [(k, mkEntry k resp model inT outT now)],
      lru := k :: s.lru.dropLast,
      isDirty := true } : CacheState α)
      = { ({ s with
            cache := s.cache ++ [(k, mkEntry k resp model inT outT now)],
            lru := k :: s.lru,
            isDirty := true } : CacheState α) with
          lru := k :: s.lru.dropLast,
          cache := mapDelete tk (({ s with
            cache := s.cache ++ [(k, mkEntry k resp model inT outT now)],
            lru := k :: s.lru,
            isDirty := true } : CacheState α)).cache,
          isDirty := true } := by
    rw [show (({ s with
        cache := s.cache ++ [(k, mkEntry k resp model inT outT now)],
        lru := k :: s.lru,
        isDirty := true } : CacheState α)).cache
          = s.cache ++ [(k, mkEntry k resp model inT outT now)] from rfl]
    rw [hdel]
  have hle : ¬ (({ s with
      cache := mapDelete tk s.cache ++ [(k, mkEntry k resp model inT outT now)],
      lru := k :: s.lru.dropLast,
      isDirty := true } : CacheState α)).cache.length
        > (({ s with
      cache := mapDelete tk s.cache ++ [(k, mkEntry k resp model inT outT now)],
      lru := k :: s.lru.dropLast,
      isDirty := true } : CacheState α)).cacheConfig.maxSize := by
    show ¬ (mapDelete tk s.cache ++ [(k, mkEntry k resp model inT outT now)]).length
        > s.cacheConfig.maxSize
    rw [List.length_append]
    simp only [List.length_singleton]
    omega
  have hfinal : setCachedResponse k resp model inT outT now s =
      { s with
          cache := mapDelete tk s.cache ++ [(k, mkEntry k resp model inT outT now)],
          lru := k :: s.lru.dropLast,
          isDirty := true } := by
    rw [setCachedResponse_eq_of_fresh k resp model inT outT now s hen hfresh]
    rw [evictLoop_step s.lru.length _ _ hgt tk (k :: s.lru.dropLast) hrt hs2]
    exact evictLoop_of_le _ _ hle
  refine ⟨tk, htk, hkne, ?_, ?_⟩
  · rw [hfinal]
    show (mapDelete tk s.cache ++ [(k, mkEntry k resp model inT outT now)]).length
        = s.cacheConfig.maxSize
    rw [List.length_append]
    simp only [List.length_singleton]
    omega
  · intro k'
    rw [hfinal]
    show mapGet k' (mapDelete tk s.cache ++ [(k, mkEntry k resp model inT outT now)])
        = if k' = k then some (mkEntry k resp model inT outT now)
          else if k' = tk then none
          else mapGet k' s.cache
    rw [mapGet_append, mapGet_mapDelete]
    by_cases hk2 : k' = k
    · have hkne2 : ¬ k' = tk := fun hc => hkne (hc.symm.trans hk2)
      rw [if_pos hk2, if_neg hkne2, hk2, hfresh]
      simp [mapGet]
    · by_cases htk2 : k' = tk
      · have hkk : ¬ k = k' := fun hc => hk2 hc.symm
        rw [if_neg hk2, if_pos htk2]
        simp [mapGet, hkk]
      · rw [if_neg htk2, if_neg hk2]
        cases hm : mapGet k' s.cache with
        | some w => rfl
        | none =>
          have hkk : ¬ k = k' := fun hc => hk2 hc.symm
          simp [mapGet, hkk]

theorem getCachedResponse_moves_to_front {α : Type} (s : CacheState α)
    (k : String) (now : Int) (e : CacheEntry α)
    (wf : CacheWF s) (hen : s.cacheConfig.enabled = true)
    (hm : mapGet k s.cache = some e)
    (hfr : ¬ (now - e.createdAt > (s.cacheConfig.ttlSeconds : Int) * 1000)) :
    (getCachedResponse k now s).2.lru.head? = some k
    ∧ (2 ≤ s.lru.length →
        ¬ (getCachedResponse k now s).2.lru.getLast? = some k) := by
  rw [getCachedResponse_hit k now s e hen hm hfr]
  have hkmem : k ∈ s.lru := (wf.mem_iff k).mpr (by
    rw [← mapGet_isSome_iff, hm]
    rfl)
  simp only [hkmem, if_true]
  unfold moveToFront
  by_cases hh : s.lru.head? = some k
  · rw [if_pos hh]
    refine ⟨hh, ?_⟩
    intro hlen hlast
    cases hsl : s.lru with
    | nil =>
      rw [hsl] at hh
      simp at hh
    | cons a t =>
      rw [hsl] at hh hlast hlen
      have ha : a = k := by simpa using hh
      subst ha
      cases ht : t with
      | nil =>
        rw [ht] at hlen
        simp at hlen
      | cons b t2 =>
        rw [ht] at hlast
        rw [List.getLast?_cons_cons] at hlast
        have hkmem2 : a ∈ (b :: t2) := mem_of_getLast?_eq hlast
        have hnd := wf.nodupLru
        rw [hsl, ht] at hnd
        rw [List.nodup_cons] at hnd
        exact hnd.1 hkmem2
  · rw [if_neg hh]
    refine ⟨rfl, ?_⟩
    intro hlen hlast
    have herlen : (s.lru.erase k).length + 1 = s.lru.length :=
      List.length_erase_add_one hkmem
    cases her : s.lru.erase k with
    | nil =>
      rw [her] at herlen
      simp at herlen
      omega
    | cons b t =>
      rw [her] at hlast
      rw [List.getLast?_cons_cons] at hlast
      have hkmem2 : k ∈ (b :: t) := mem_of_getLast?_eq hlast
      rw [← her] at hkmem2
      exact wf.nodupLru.not_mem_erase hkmem2

/-- C2.  On a full enabled cache, inserting a fresh key evicts exactly the
least-recently-used entry (the recency tail), leaving the size at the
maximum; and a fresh hit moves the accessed key to the most-recently-used
position, so it is not the key the next eviction would remove. -/
theorem cache_lru_eviction_and_recency :
    (∀ (α : Type) (s : CacheState α) (k model : String) (resp : α)
        (inT outT : Nat) (now : Int),
      CacheWF s → s.cacheConfig.enabled = true → 0 < s.cacheConfig.maxSize →
      s.cache.length = s.cacheConfig.maxSize → mapGet k s.cache = none →
      ∃ tailKey, s.lru.getLast? = some tailKey ∧ ¬ tailKey = k
        ∧ (setCachedResponse k resp model inT outT now s).cache.length
            = s.cacheConfig.maxSize
        ∧ ∀ k', mapGet k' (setCachedResponse k resp model inT outT now s).cache
            = if k' = k then some (mkEntry k resp model inT outT now)
              else if k' = tailKey then none
              else mapGet k' s.cache)
    ∧ (∀ (α : Type) (s : CacheState α) (k : String) (now : Int)
          (e : CacheEntry α),
        CacheWF s → s.cacheConfig.enabled = true →
        mapGet k s.cache = some e →
        ¬ (now - e.createdAt > (s.cacheConfig.ttlSeconds : Int) * 1000) →
        (getCachedResponse k now s).2.lru.head? = some k
        ∧ (2 ≤ s.lru.length →
            ¬ (getCachedResponse k now s).2.lru.getLast? = some k)) :=
  ⟨fun _ s k model resp inT outT now wf hen hpos hfull hfresh =>
      setCachedResponse_evicts_lru s k model resp inT outT now wf hen hpos hfull hfresh,
   fun _ s k now e wf hen hm hfr =>
      getCachedResponse_moves_to_front s k now e wf hen hm hfr⟩

/-- A full two-entry enabled cache used to witness C2 concretely; the key
`"a"` is most recently used, `"b"` least recently used. -/
def demoFullState : CacheState Nat :=
  { cache := [("a", { key := "a", response := 1, model := "m", inputTokens := 1,
                      outputTokens := 1, createdAt := 0, lastAccessed := 0,
                      hits := 0 }),
              ("b", { key := "b", response := 2, model := "m", inputTokens := 1,
                      outputTokens := 1, createdAt := 0, lastAccessed := 0,
                      hits := 0 })],
    lru := ["a", "b"],
    cacheConfig := { enabled := true, maxSize := 2, ttlSeconds := 3600 },
    hits := 0, misses := 0, savedTokens := 0, isDirty := false }

/-- Witness for C2: inserting `"c"` into the full two-entry cache and
hitting `"a"`. -/
theorem cache_lru_eviction_and_recency_witness :
    CacheWF demoFullState
    ∧ mapGet "c" demoFullState.cache = none
    ∧ (∃ tailKey, demoFullState.lru.getLast? = some tailKey ∧ ¬ tailKey = "c"
        ∧ (setCachedResponse "c" 9 "m" 1 1 5 demoFullState).cache.length
            = demoFullState.cacheConfig.maxSize
        ∧ ∀ k', mapGet k' (setCachedResponse "c" 9 "m" 1 1 5 demoFullState).cache
            = if k' = "c" then some (mkEntry "c" 9 "m" 1 1 5)
              else if k' = tailKey then none
              else mapGet k' demoFullState.cache)
    ∧ ((getCachedResponse "a" 5 demoFullState).2.lru.head? = some "a"
        ∧ (2 ≤ demoFullState.lru.length →
            ¬ (getCachedResponse "a" 5 demoFullState).2.lru.getLast? = some "a")) := by
  have wf : CacheWF demoFullState := ⟨by decide, by decide, fun k => Iff.rfl⟩
  refine ⟨wf, rfl, ?_, ?_⟩
  · exact cache_lru_eviction_and_recency.1 Nat demoFullState "c" "m" 9 1 1 5
      wf rfl (by decide) rfl rfl
  · exact cache_lru_eviction_and_recency.2 Nat demoFullState "a" 5
      { key := "a", response := 1, model := "m", inputTokens := 1,
        outputTokens := 1, createdAt := 0, lastAccessed := 0, hits := 0 }
      wf rfl rfl (by decide)

/-- C10.  On a disabled cache, `getCachedResponse` misses without touching
any state and `setCachedResponse` is a complete no-op. -/
theorem cache_disabled_noop {α : Type} (s : CacheState α) (k model : String)
    (resp : α) (inputTokens outputTokens : Nat) (now : Int)
    (hdis : s.cacheConfig.enabled = false) :
    getCachedResponse k now s = (none, s)
    ∧ setCachedResponse k resp model inputTokens outputTokens now s = s := by
  constructor
  · unfold getCachedResponse
    simp [hdis]
  · unfold setCachedResponse
    simp [hdis]

/-- Witness for C10 at a concrete disabled cache state. -/
theorem cache_disabled_noop_witness :
    (({ cache := [("a", { key := "a", response := 5, model := "m",
                          inputTokens := 1, outputTokens := 1, createdAt := 0,
                          lastAccessed := 0, hits := 0 })], lru := ["a"],
        cacheConfig := { enabled := false, maxSize := 10, ttlSeconds := 3600 },
        hits := 3, misses := 4, savedTokens := 5, isDirty := false } :
          CacheState Nat).cacheConfig.enabled = false)
    ∧ getCachedResponse "a" 50
        ({ cache := [("a", { key := "a", response := 5, model := "m",
                             inputTokens := 1, outputTokens := 1, createdAt := 0,
                             lastAccessed := 0, hits := 0 })], lru := ["a"],
           cacheConfig := { enabled := false, maxSize := 10, ttlSeconds := 3600 },
           hits := 3, misses := 4, savedTokens := 5, isDirty := false } :
            CacheState Nat)
        = (none,
           { cache := [("a", { key := "a", response := 5, model := "m",
                               inputTokens := 1, outputTokens := 1, createdAt := 0,
                               lastAccessed := 0, hits := 0 })], lru := ["a"],
             cacheConfig := { enabled := false, maxSize := 10, ttlSeconds := 3600 },
             hits := 3, misses := 4, savedTokens := 5, isDirty := false }) := by
  refine ⟨rfl, ?_⟩
  exact (cache_disabled_noop _ "a" "m" (5 : Nat) 1 1 50 rfl).1

end RequestCache

namespace Retry

/-- The shape of a thrown error as inspected by `isRetryableStatus` and
`isNetworkError` in `src/lib/retry.ts`: an object with optional `status`,
`response.status`, `code` and `name` properties.  A JS property that is
absent is `none`. -/
structure JsError where
  status : Option Nat
  responseStatus : Option Nat
  code : Option String
  name : Option String
  deriving Repr, DecidableEq

/-- Subset of `RetryOptions` that drives control flow plus the backoff
configuration; `DEFAULT_OPTIONS` from the source. -/
structure RetryOptions where
  maxAttempts : Nat
  initialDelayMs : ℚ
  maxDelayMs : ℚ
  backoffMultiplier : ℚ
  retryableStatuses : List Nat
  deriving Repr, DecidableEq

/-- Source `DEFAULT_OPTIONS`. -/
def DEFAULT_OPTIONS : RetryOptions :=
  { maxAttempts := 3, initialDelayMs := 1000, maxDelayMs := 30000,
    backoffMultiplier := 2, retryableStatuses := [429, 500, 502, 503, 504] }

/-- Source `isRetryableStatus`: a truthy `status` or `response.status`
contained in the retryable list. -/
def isRetryableStatus (e : JsError) (retryableStatuses : List Nat) : Bool :=
  (match e.status with
   | some st => decide (st ≠ 0) && retryableStatuses.contains st
   | none => false)
  || (match e.responseStatus with
      | some st => decide (st ≠ 0) && retryableStatuses.contains st
      | none => false)

/-- Source `isNetworkError`: known transport error codes, or an abort or
timeout name. -/
def isNetworkError (e : JsError) : Bool :=
  (match e.code with
   | some c =>
     (c == "ECONNRESET") || (c == "ECONNREFUSED") || (c == "ETIMEDOUT")
       || (c == "ENOTFOUND") || (c == "EAI_AGAIN")
   | none => false)
  || (match e.name with
      | some n => (n == "AbortError") || (n == "TimeoutError")
      | none => false)

/-- Source `calculateDelay`; `r` is the value drawn by `Math.random()`,
a rational in `[0, 1)`.  The source computes
`delay = initialDelayMs * backoffMultiplier ^ (attempt - 1)`,
`jitter = delay * 0.2 * (r - 0.5)` and returns
`min(delay + jitter, maxDelayMs)`. -/
def calculateDelay (attempt : Nat) (initialDelayMs maxDelayMs backoffMultiplier : ℚ)
    (r : ℚ) : ℚ :=
  let delay := initialDelayMs * backoffMultiplier ^ (attempt - 1)
  let jitter := delay * (1/5) * (r - 1/2)
  min (delay + jitter) maxDelayMs

/-- The attempt loop of `withRetry`, with explicit fuel; `outcomes n` is
the result of the `n`-th invocation of `fn` (1-indexed).  Returns the
surfaced result together with the index of the last invocation made, that
is, the total number of invocations.  The fuel-0 branch mirrors the
unreachable trailing `throw lastError`. -/
def retryGo {α : Type} (outcomes : Nat → Except JsError α)
    (maxAttempts : Nat) (statuses : List Nat) :
    Nat → Nat → Except JsError α × Nat
  | 0, attempt => (Except.error ⟨none, none, none, none⟩, attempt - 1)
  | fuel + 1, attempt =>
    match outcomes attempt with
    | Except.ok v => (Except.ok v, attempt)
    | Except.error e =>
      if decide (attempt < maxAttempts)
          && (isRetryableStatus e statuses || isNetworkError e) then
        retryGo outcomes maxAttempts statuses fuel (attempt + 1)
      else (Except.error e, attempt)

/-- Source `withRetry`: run the attempt loop from attempt 1 with exactly
`maxAttempts` iterations available. -/
def withRetry {α : Type} (outcomes : Nat → Except JsError α)
    (opts : RetryOptions) : Except JsError α × Nat :=
  retryGo outcomes opts.maxAttempts opts.retryableStatuses opts.maxAttempts 1

theorem retryGo_succeeds {α : Type} (outcomes : Nat → Except JsError α)
    (M : Nat) (statuses : List Nat) (errs : Nat → JsError) (v : α) :
    ∀ (fuel attempt : Nat), attempt + fuel = M + 1 → 1 ≤ attempt → attempt ≤ M →
      (∀ j, attempt ≤ j → j < M → outcomes j = Except.error (errs j)
        ∧ (isRetryableStatus (errs j) statuses || isNetworkError (errs j)) = true) →
      outcomes M = Except.ok v →
      retryGo outcomes M statuses fuel attempt = (Except.ok v, M) := by
  intro fuel
  induction fuel with
  | zero =>
    intro attempt hsum h1 hM hall hok
    omega
  | succ n ih =>
    intro attempt hsum h1 hM hall hok
    by_cases hAM : attempt = M
    · subst hAM
      simp only [retryGo]
      rw [hok]
    · have hlt : attempt < M := lt_of_le_of_ne hM hAM
      obtain ⟨herr, hretry⟩ := hall attempt (le_refl attempt) hlt
      simp only [retryGo]
      rw [herr]
      dsimp only
      rw [if_pos (by simp [hlt, hretry])]
      exact ih (attempt + 1) (by omega) (by omega) (by omega)
        (fun j hj1 hj2 => hall j (by omega) hj2) hok

theorem retryGo_stops {α : Type} (outcomes : Nat → Except JsError α)
    (M : Nat) (statuses : List Nat) (fuel attempt : Nat) (e : JsError)
    (herr : outcomes attempt = Except.error e)
    (hno : (decide (attempt < M)
        && (isRetryableStatus e statuses || isNetworkError e)) = false) :
    retryGo outcomes M statuses (fuel + 1) attempt = (Except.error e, attempt) := by
  simp only [retryGo]
  rw [herr]
  dsimp only
  rw [if_neg (by simp [hno])]

theorem retryGo_exhausts {α : Type} (outcomes : Nat → Except JsError α)
    (M : Nat) (statuses : List Nat) (errs : Nat → JsError) :
    ∀ (fuel attempt : Nat), attempt + fuel = M + 1 → 1 ≤ attempt → attempt ≤ M →
      (∀ j, attempt ≤ j → j ≤ M → outcomes j = Except.error (errs j)
        ∧ (isRetryableStatus (errs j) statuses || isNetworkError (errs j)) = true) →
      retryGo outcomes M statuses fuel attempt = (Except.error (errs M), M) := by
  intro fuel
  induction fuel with
  | zero =>
    intro attempt hsum h1 hM hall
    omega
  | succ n ih =>
    intro attempt hsum h1 hM hall
    obtain ⟨herr, hretry⟩ := hall attempt (le_refl attempt) hM
    by_cases hAM : attempt = M
    · subst hAM
      simp only [retryGo]
      rw [herr]
      dsimp only
      rw [if_neg (by simp)]
    · have hlt : attempt < M := lt_of_le_of_ne hM hAM
      simp only [retryGo]
      rw [herr]
      dsimp only
      rw [if_pos (by simp [hlt, hretry])]
      exact ih (attempt + 1) (by omega) (by omega) (by omega)
        (fun j hj1 hj2 => hall j (by omega) hj2)

theorem retryable_of_status_503 (e : JsError) (h : e.status = some 503) :
    (isRetryableStatus e DEFAULT_OPTIONS.retryableStatuses
      || isNetworkError e) = true := by
  unfold isRetryableStatus DEFAULT_OPTIONS
  rw [h]
  simp

/-- C4.  With the default retryable statuses: a function failing with
status 503 on its first `maxAttempts - 1` invocations and succeeding on
invocation `maxAttempts` returns the success value after exactly
`maxAttempts` invocations; a function failing with a plain status-400
error is invoked exactly once and that error is rethrown unchanged; and
when every invocation fails retryably, after `maxAttempts` invocations the
last error is surfaced unchanged. -/
theorem withRetry_retry_semantics :
    (∀ (α : Type) (outcomes : Nat → Except JsError α) (errs : Nat → JsError)
        (M : Nat) (v : α),
      1 ≤ M →
      (∀ j, 1 ≤ j → j < M →
        outcomes j = Except.error (errs j) ∧ (errs j).status = some 503) →
      outcomes M = Except.ok v →
      withRetry outcomes { DEFAULT_OPTIONS with maxAttempts := M }
        = (Except.ok v, M))
    ∧ (∀ (α : Type) (outcomes : Nat → Except JsError α) (e : JsError) (M : Nat),
        1 ≤ M →
        outcomes 1 = Except.error e →
        e.status = some 400 → e.responseStatus = none →
        e.code = none → e.name = none →
        withRetry outcomes { DEFAULT_OPTIONS with maxAttempts := M }
          = (Except.error e, 1))
    ∧ (∀ (α : Type) (outcomes : Nat → Except JsError α) (errs : Nat → JsError)
          (M : Nat),
        1 ≤ M →
        (∀ j, 1 ≤ j → j ≤ M →
          outcomes j = Except.error (errs j)
          ∧ (isRetryableStatus (errs j) DEFAULT_OPTIONS.retryableStatuses
              || isNetworkError (errs j)) = true) →
        withRetry outcomes { DEFAULT_OPTIONS with maxAttempts := M }
          = (Except.error (errs M), M)) := by
  refine ⟨?_, ?_, ?_⟩
  · intro α outcomes errs M v hM hall hok
    unfold withRetry
    exact retryGo_succeeds outcomes M _ errs v M 1 (by omega) (le_refl 1) hM
      (fun j hj1 hj2 => ⟨(hall j hj1 hj2).1,
        retryable_of_status_503 (errs j) (hall j hj1 hj2).2⟩) hok
  · intro α outcomes e M hM herr hst hresp hcode hname
    unfold withRetry
    have hno : (decide ((1 : Nat) < M)
        && (isRetryableStatus e DEFAULT_OPTIONS.retryableStatuses
            || isNetworkError e)) = false := by
      have hr : isRetryableStatus e DEFAULT_OPTIONS.retryableStatuses = false := by
        unfold isRetryableStatus DEFAULT_OPTIONS
        rw [hst, hresp]
        simp
      have hn : isNetworkError e = false := by
        unfold isNetworkError
        rw [hcode, hname]
        simp
      rw [hr, hn]
      simp
    cases M with
    | zero => omega
    | succ n => exact retryGo_stops outcomes (n + 1) _ n 1 e herr hno
  · intro α outcomes errs M hM hall
    unfold withRetry
    exact retryGo_exhausts outcomes M _ errs M 1 (by omega) (le_refl 1) hM hall

/-- A plain HTTP 503 error object. -/
def err503 : JsError := ⟨some 503, none, none, none⟩

/-- A plain HTTP 400 error object. -/
def err400 : JsError := ⟨some 400, none, none, none⟩

/-- A function failing twice with 503 and then succeeding with 42. -/
def demoOutcomes503 : Nat → Except JsError Nat :=
  fun n => if n < 3 then Except.error err503 else Except.ok 42

/-- A function that always fails with 400. -/
def demoOutcomes400 : Nat → Except JsError Nat :=
  fun _ => Except.error err400

/-- A function that always fails with 503. -/
def demoOutcomesAllFail : Nat → Except JsError Nat :=
  fun _ => Except.error err503

/-- Witness for C4: three attempts, concrete outcome sequences. -/
theorem withRetry_retry_semantics_witness :
    withRetry demoOutcomes503 { DEFAULT_OPTIONS with maxAttempts := 3 }
      = (Except.ok 42, 3)
    ∧ withRetry demoOutcomes400 { DEFAULT_OPTIONS with maxAttempts := 3 }
      = (Except.error err400, 1)
    ∧ withRetry demoOutcomesAllFail { DEFAULT_OPTIONS with maxAttempts := 3 }
      = (Except.error err503, 3) := by
  refine ⟨?_, ?_, ?_⟩
  · exact withRetry_retry_semantics.1 Nat demoOutcomes503 (fun _ => err503) 3 42
      (by norm_num)
      (fun j h1 h2 => by
        have hj : j = 1 ∨ j = 2 := by omega
        rcases hj with rfl | rfl <;> exact ⟨rfl, rfl⟩)
      rfl
  · exact withRetry_retry_semantics.2.1 Nat demoOutcomes400 err400 3
      (by norm_num) rfl rfl rfl rfl rfl
  · exact withRetry_retry_semantics.2.2 Nat demoOutcomesAllFail (fun _ => err503) 3
      (by norm_num)
      (fun j h1 h2 => ⟨rfl, retryable_of_status_503 err503 rfl⟩)

/-- C3 (code observation).  With the default configuration at attempt 1,
for every possible `Math.random()` draw the computed delay stays within
±10% of the nominal 1000ms delay, i.e. inside `[900, 1100]`: the jitter
factor in the source is `0.2 * (r - 0.5)`, which never reaches the ±20%
band (delays of 800 or 1200) asserted by the specification and by the
source comment. -/
theorem calculateDelay_jitter_only_ten_percent (r : ℚ)
    (h0 : 0 ≤ r) (h1 : r ≤ 1) :
    900 ≤ calculateDelay 1 1000 30000 2 r
    ∧ calculateDelay 1 1000 30000 2 r ≤ 1100 := by
  have hval : calculateDelay 1 1000 30000 2 r = 900 + 200 * r := by
    unfold calculateDelay
    simp only [Nat.sub_self, pow_zero, mul_one]
    rw [min_eq_left (by nlinarith)]
    ring
  rw [hval]
  constructor <;> nlinarith

/-- Witness for C3's code observation at the draw `r = 0`, where the delay
is exactly 900ms (−10%), the extreme the code can produce. -/
theorem calculateDelay_jitter_only_ten_percent_witness :
    (0 : ℚ) ≤ 0 ∧ (0 : ℚ) ≤ 1
    ∧ (900 ≤ calculateDelay 1 1000 30000 2 0
        ∧ calculateDelay 1 1000 30000 2 0 ≤ 1100) :=
  ⟨le_refl 0, by norm_num,
    calculateDelay_jitter_only_ten_percent 0 (le_refl 0) (by norm_num)⟩

end Retry

namespace RateLimit

/-- The fields of the process state consulted by `checkRateLimit`:
the configured minimum inter-request interval in seconds (absent when no
interval is configured), the timestamp of the last request in ms, and
whether waiting is enabled. -/
structure RLState where
  rateLimitSeconds : Option ℚ
  lastRequestTimestamp : Option Int
  rateLimitWait : Bool
  deriving Repr, DecidableEq

/-- The `HTTPError` thrown by `checkRateLimit`: a message and the HTTP
status of the attached `Response`. -/
structure HTTPErrorModel where
  message : String
  status : Nat
  deriving Repr, DecidableEq

/-- Source `checkRateLimit(state)`.  `now` is `Date.now()` at entry and
`nowAfterWait` is the fresh `Date.now()` read after the `sleep` in the
waiting branch.  Returns the updated state together with the slept
duration in ms (`none` when no sleep happened); throwing is modelled with
`Except.error`.  A stored timestamp of `0` is falsy in JS and treated as
absent, as in the source. -/
def checkRateLimit (s : RLState) (now nowAfterWait : Int) :
    Except HTTPErrorModel (RLState × Option ℚ) :=
  match s.rateLimitSeconds with
  | none => Except.ok (s, none)
  | some limit =>
    match s.lastRequestTimestamp with
    | none => Except.ok ({ s with lastRequestTimestamp := some now }, none)
    | some last =>
      if last = 0 then
        Except.ok ({ s with lastRequestTimestamp := some now }, none)
      else
        let elapsedSeconds : ℚ := ((now : ℚ) - (last : ℚ)) / 1000
        if elapsedSeconds > limit then
          Except.ok ({ s with lastRequestTimestamp := some now }, none)
        else
          let waitTimeSeconds : Int := ⌈limit - elapsedSeconds⌉
          if s.rateLimitWait = false then
            Except.error { message := "Rate limit exceeded", status := 429 }
          else
            Except.ok ({ s with lastRequestTimestamp := some nowAfterWait },
              some ((waitTimeSeconds : ℚ) * 1000))

/-- C7.  When an interval is configured and the elapsed time is under it,
`checkRateLimit` throws an HTTP 429 error if waiting is disabled, and with
waiting enabled it sleeps out at least the remainder of the interval and
stamps the post-sleep time; with no interval configured, or elapsed time
over the interval, it returns without error. -/
theorem checkRateLimit_gating :
    (∀ (s : RLState) (now nowAfterWait : Int),
      s.rateLimitSeconds = none →
      checkRateLimit s now nowAfterWait = Except.ok (s, none))
    ∧ (∀ (s : RLState) (limit : ℚ) (last now nowAfterWait : Int),
        s.rateLimitSeconds = some limit →
        s.lastRequestTimestamp = some last → ¬ last = 0 →
        ((now : ℚ) - (last : ℚ)) / 1000 < limit →
        s.rateLimitWait = false →
        checkRateLimit s now nowAfterWait
          = Except.error { message := "Rate limit exceeded", status := 429 })
    ∧ (∀ (s : RLState) (limit : ℚ) (last now nowAfterWait : Int),
        s.rateLimitSeconds = some limit →
        s.lastRequestTimestamp = some last → ¬ last = 0 →
        ((now : ℚ) - (last : ℚ)) / 1000 < limit →
        s.rateLimitWait = true →
        ∃ w : ℚ,
          checkRateLimit s now nowAfterWait
            = Except.ok ({ s with lastRequestTimestamp := some nowAfterWait },
                some w)
          ∧ limit * 1000 - ((now : ℚ) - (last : ℚ)) ≤ w)
    ∧ (∀ (s : RLState) (limit : ℚ) (last now nowAfterWait : Int),
        s.rateLimitSeconds = some limit →
        s.lastRequestTimestamp = some last → ¬ last = 0 →
        ((now : ℚ) - (last : ℚ)) / 1000 > limit →
        checkRateLimit s now nowAfterWait
          = Except.ok ({ s with lastRequestTimestamp := some now }, none)) := by
  refine ⟨?_, ?_, ?_, ?_⟩
  · intro s now nowAfterWait hnone
    unfold checkRateLimit
    rw [hnone]
  · intro s limit last now nowAfterWait hlim hlast hlz hunder hw
    unfold checkRateLimit
    rw [hlim, hlast]
    dsimp only
    rw [if_neg hlz, if_neg (by exact fun hc => absurd hunder (not_lt_of_gt hc)),
      if_pos hw]
  · intro s limit last now nowAfterWait hlim hlast hlz hunder hw
    unfold checkRateLimit
    rw [hlim, hlast]
    dsimp only
    rw [if_neg hlz, if_neg (by exact fun hc => absurd hunder (not_lt_of_gt hc)),
      if_neg (by rw [hw]; simp)]
    refine ⟨(((⌈limit - ((now : ℚ) - (last : ℚ)) / 1000⌉ : Int) : ℚ) * 1000), rfl, ?_⟩
    have hceil : limit - ((now : ℚ) - (last : ℚ)) / 1000
        ≤ ((⌈limit - ((now : ℚ) - (last : ℚ)) / 1000⌉ : Int) : ℚ) :=
      Int.le_ceil _
    have h1000 : (limit - ((now : ℚ) - (last : ℚ)) / 1000) * 1000
        = limit * 1000 - ((now : ℚ) - (last : ℚ)) := by
      field_simp
    nlinarith [hceil]
  · intro s limit last now nowAfterWait hlim hlast hlz hover
    unfold checkRateLimit
    rw [hlim, hlast]
    dsimp only
    rw [if_neg hlz, if_pos hover]

/-- A state with no interval configured. -/
def demoRLNone : RLState :=
  { rateLimitSeconds := none, lastRequestTimestamp := some 5,
    rateLimitWait := false }

/-- Interval 10s, last request at t=1000ms, waiting disabled. -/
def demoRLNoWait : RLState :=
  { rateLimitSeconds := some 10, lastRequestTimestamp := some 1000,
    rateLimitWait := false }

/-- Interval 10s, last request at t=1000ms, waiting enabled. -/
def demoRLWait : RLState :=
  { rateLimitSeconds := some 10, lastRequestTimestamp := some 1000,
    rateLimitWait := true }

/-- Witness for C7: interval 10s, last request at t=1000ms, probe at
t=3000ms (2s elapsed), plus a no-interval state and a long-elapsed probe. -/
theorem checkRateLimit_gating_witness :
    checkRateLimit demoRLNone 3000 9000 = Except.ok (demoRLNone, none)
    ∧ checkRateLimit demoRLNoWait 3000 9000
      = Except.error { message := "Rate limit exceeded", status := 429 }
    ∧ (∃ w : ℚ,
        checkRateLimit demoRLWait 3000 11000
          = Except.ok ({ demoRLWait with lastRequestTimestamp := some 11000 },
              some w)
        ∧ 10 * 1000 - ((3000 : ℚ) - (1000 : ℚ)) ≤ w)
    ∧ checkRateLimit demoRLWait 20000 90000
      = Except.ok ({ demoRLWait with lastRequestTimestamp := some 20000 },
          none) := by
  refine ⟨?_, ?_, ?_, ?_⟩
  · exact checkRateLimit_gating.1 demoRLNone 3000 9000 rfl
  · exact checkRateLimit_gating.2.1 demoRLNoWait 10 1000 3000 9000 rfl rfl
      (by norm_num) (by norm_num) rfl
  · exact checkRateLimit_gating.2.2.1 demoRLWait 10 1000 3000 11000 rfl rfl
      (by norm_num) (by norm_num) rfl
  · exact checkRateLimit_gating.2.2.2 demoRLWait 10 1000 20000 90000 rfl rfl
      (by norm_num) (by norm_num)

end RateLimit

namespace TokenRefresh

/-- The token-exchange response consumed by `setupCopilotToken`
(`GetCopilotTokenResponse`, trimmed in the source to the three fields it
uses). -/
structure GetCopilotTokenResponse where
  expires_at : Int
  refresh_in : Int
  token : String
  deriving Repr, DecidableEq

/-- Source constant `MAX_TOKEN_REFRESH_RETRIES`. -/
def MAX_TOKEN_REFRESH_RETRIES : Nat := 3

/-- The interval in ms that `setupCopilotToken` passes to `setInterval`:
`(refresh_in - 60) * 1000`. -/
def refreshIntervalMs (resp : GetCopilotTokenResponse) : Int :=
  (resp.refresh_in - 60) * 1000

/-- The retry loop inside the scheduled refresh callback of
`setupCopilotToken`: `outcome n` is the result of the `n`-th
`getCopilotToken` call inside one scheduled refresh (1-indexed, `some`
carries the new token).  Returns the resulting `copilotToken` (the stale
one when every attempt fails), the list of sleeps performed in ms, and
whether the final give-up error was logged. -/
def refreshLoop (outcome : Nat → Option String) (stale : String) :
    Nat → Nat → List Int → String × List Int × Bool
  | 0, _, sleeps => (stale, sleeps, true)
  | fuel + 1, attempt, sleeps =>
    match outcome attempt with
    | some t => (t, sleeps, false)
    | none =>
      if attempt < MAX_TOKEN_REFRESH_RETRIES then
        refreshLoop outcome stale fuel (attempt + 1)
          (sleeps ++ [(attempt : Int) * 5000])
      else (stale, sleeps, true)

/-- One firing of the scheduled refresh. -/
def runScheduledRefresh (outcome : Nat → Option String) (stale : String) :
    String × List Int × Bool :=
  refreshLoop outcome stale MAX_TOKEN_REFRESH_RETRIES 1 []

/-- C8 counterexample: for the token response `{expires_at := 1800,
refresh_in := 1500}` fetched at time 0, the source schedules the refresh
`(refresh_in - 60) * 1000 = 1440000` ms after the fetch, not at the
declared expiry minus 60 seconds (`1800 * 1000 - 60000 = 1740000` ms), so
the refresh is not scheduled at `expiry - 60s`. -/
theorem refresh_schedule_counterexample :
    refreshIntervalMs { expires_at := 1800, refresh_in := 1500, token := "t" }
        = 1440000
    ∧ ¬ refreshIntervalMs { expires_at := 1800, refresh_in := 1500, token := "t" }
        = 1800 * 1000 - 60000 := by
  constructor
  · rfl
  · intro hc
    norm_num [refreshIntervalMs] at hc

/-- C8 amended.  The refresh fires `(refresh_in - 60) seconds` after the
fetch; a scheduled refresh makes up to 3 attempts, sleeping
`attempt * 5` seconds between consecutive failed attempts; when all 3
fail it gives up, keeps the stale token and logs the degradation; a
successful attempt installs the new token without further attempts. -/
theorem token_refresh_schedule_and_retries :
    (∀ resp : GetCopilotTokenResponse,
      refreshIntervalMs resp = (resp.refresh_in - 60) * 1000)
    ∧ (∀ (outcome : Nat → Option String) (stale : String),
        (∀ j, 1 ≤ j → j ≤ MAX_TOKEN_REFRESH_RETRIES → outcome j = none) →
        runScheduledRefresh outcome stale = (stale, [5000, 10000], true))
    ∧ (∀ (outcome : Nat → Option String) (stale newTok : String),
        outcome 1 = some newTok →
        runScheduledRefresh outcome stale = (newTok, [], false))
    ∧ (∀ (outcome : Nat → Option String) (stale newTok : String),
        outcome 1 = none → outcome 2 = some newTok →
        runScheduledRefresh outcome stale = (newTok, [5000], false))
    ∧ (∀ (outcome : Nat → Option String) (stale newTok : String),
        outcome 1 = none → outcome 2 = none → outcome 3 = some newTok →
        runScheduledRefresh outcome stale = (newTok, [5000, 10000], false)) := by
  refine ⟨fun resp => rfl, ?_, ?_, ?_, ?_⟩
  · intro outcome stale hall
    have h1 := hall 1 (by decide) (by decide)
    have h2 := hall 2 (by decide) (by decide)
    have h3 := hall 3 (by decide) (by decide)
    unfold runScheduledRefresh
    simp only [refreshLoop, h1, h2, h3]
    norm_num [MAX_TOKEN_REFRESH_RETRIES]
  · intro outcome stale newTok h1
    unfold runScheduledRefresh
    simp only [refreshLoop, h1]
  · intro outcome stale newTok h1 h2
    unfold runScheduledRefresh
    simp only [refreshLoop, h1, h2]
    norm_num [MAX_TOKEN_REFRESH_RETRIES]
  · intro outcome stale newTok h1 h2 h3
    unfold runScheduledRefresh
    simp only [refreshLoop, h1, h2, h3]
    norm_num [MAX_TOKEN_REFRESH_RETRIES]

/-- A refresh whose upstream calls always fail. -/
def demoRefreshAllFail : Nat → Option String := fun _ => none

/-- A refresh whose upstream call succeeds on the second attempt. -/
def demoRefreshSecond : Nat → Option String :=
  fun n => if n = 2 then some "new" else none

/-- Witness for the amended C8 at concrete outcome sequences. -/
theorem token_refresh_schedule_and_retries_witness :
    refreshIntervalMs { expires_at := 1800, refresh_in := 1500, token := "t" }
        = (1500 - 60) * 1000
    ∧ runScheduledRefresh demoRefreshAllFail "stale"
        = ("stale", [5000, 10000], true)
    ∧ runScheduledRefresh demoRefreshSecond "stale" = ("new", [5000], false) := by
  refine ⟨?_, ?_, ?_⟩
  · exact token_refresh_schedule_and_retries.1
      { expires_at := 1800, refresh_in := 1500, token := "t" }
  · exact token_refresh_schedule_and_retries.2.1 demoRefreshAllFail "stale"
      (fun j h1 h2 => rfl)
  · exact token_refresh_schedule_and_retries.2.2.2.1 demoRefreshSecond "stale"
      "new" rfl rfl

end TokenRefresh

namespace StreamTranslation

/-- Upstream finish reasons (`"stop" | "length" | "tool_calls" |
"content_filter"`). -/
inductive FinishReason
  | stop
  | length
  | tool_calls
  | content_filter
  deriving Repr, DecidableEq

/-- The target protocol's stop-reason vocabulary. -/
inductive AnthropicStopReason
  | end_turn
  | max_tokens
  | tool_use
  | refusal
  deriving Repr, DecidableEq

/-- Modelled from the spec: `mapOpenAIStopReasonToAnthropic` lives in
`routes/messages/utils`, which is not part of the source snapshot; per the
spec it maps the upstream finish reason onto the target vocabulary
(normal completion, length limit, tool invocation, content filter)
one-to-one. -/
def mapOpenAIStopReasonToAnthropic : FinishReason → AnthropicStopReason
  | FinishReason.stop => AnthropicStopReason.end_turn
  | FinishReason.length => AnthropicStopReason.max_tokens
  | FinishReason.tool_calls => AnthropicStopReason.tool_use
  | FinishReason.content_filter => AnthropicStopReason.refusal

/-- The usage fields of a chunk that the translator reads;
`cached_tokens` stands for `prompt_tokens_details?.cached_tokens` with the
two optional levels collapsed into one. -/
structure Usage where
  prompt_tokens : Option Nat
  completion_tokens : Option Nat
  cached_tokens : Option Nat
  deriving Repr, DecidableEq

/-- `tool_calls[i].function` of an upstream chunk delta. -/
structure ToolCallFunction where
  name : Option String
  arguments : Option String
  deriving Repr, DecidableEq

/-- One entry of `delta.tool_calls`. -/
structure ToolCallDelta where
  index : Nat
  id : Option String
  function : Option ToolCallFunction
  deriving Repr, DecidableEq

/-- `choices[0].delta` of an upstream chunk. -/
structure ChunkDelta where
  content : Option String
  tool_calls : Option (List ToolCallDelta)
  deriving Repr, DecidableEq

/-- One element of `chunk.choices`. -/
structure ChunkChoice where
  delta : ChunkDelta
  finish_reason : Option FinishReason
  deriving Repr, DecidableEq

/-- The fields of `ChatCompletionChunk` consumed by the translator. -/
structure ChatCompletionChunk where
  id : String
  model : String
  usage : Option Usage
  choices : List ChunkChoice
  deriving Repr, DecidableEq

/-- The `content_block` payload of a `content_block_start` event. -/
inductive ContentBlock
  | text (t : String)
  | tool_use (id name : String)
  deriving Repr, DecidableEq

/-- The `delta` payload of a `content_block_delta` event. -/
inductive DeltaBody
  | text_delta (t : String)
  | input_json_delta (j : String)
  deriving Repr, DecidableEq

/-- The Anthropic stream events the translator emits, with the payload
fields the claims are about. -/
inductive AnthropicStreamEventData
  | message_start (id model : String) (inputTokens : Int) (outputTokens : Nat)
      (cacheRead : Option Nat)
  | content_block_start (index : Nat) (content_block : ContentBlock)
  | content_block_delta (index : Nat) (delta : DeltaBody)
  | content_block_stop (index : Nat)
  | message_delta (stop_reason : AnthropicStopReason) (inputTokens : Int)
      (outputTokens : Nat) (cacheRead : Option Nat)
  | message_stop
  | error_event (message : String)
  deriving Repr, DecidableEq

/-- A recorded tool call (`state.toolCalls[toolCallIndex]`). -/
structure ToolCallInfo where
  id : String
  name : String
  anthropicBlockIndex : Nat
  deriving Repr, DecidableEq

/-- Per-connection `AnthropicStreamState`; the JS object keyed by the
upstream tool-call position is an association list. -/
structure AnthropicStreamState where
  messageStartSent : Bool
  contentBlockIndex : Nat
  contentBlockOpen : Bool
  toolCalls : List (Nat × ToolCallInfo)
  deriving Repr, DecidableEq

/-- Modelled from the spec: the per-connection state is initialized in the
route handler (outside the snapshot) with no `message_start` sent, no open
block, block index 0 and an empty tool-call mapping. -/
def freshStreamState : AnthropicStreamState :=
  { messageStartSent := false, contentBlockIndex := 0,
    contentBlockOpen := false, toolCalls := [] }

/-- Lookup `state.toolCalls[i]`. -/
def tcGet (i : Nat) : List (Nat × ToolCallInfo) → Option ToolCallInfo
  | [] => none
  | p :: rest => if p.1 = i then some p.2 else tcGet i rest

/-- Assignment `state.toolCalls[i] = v`. -/
def tcSet (i : Nat) (v : ToolCallInfo) (m : List (Nat × ToolCallInfo)) :
    List (Nat × ToolCallInfo) :=
  if (tcGet i m).isSome then m.map (fun p => if p.1 = i then (i, v) else p)
  else m ++ [(i, v)]

/-- Source `isToolBlockOpen`: the open block is a tool block iff some
recorded tool call maps to the current block index. -/
def isToolBlockOpen (st : AnthropicStreamState) : Bool :=
  st.contentBlockOpen
    && st.toolCalls.any (fun p => p.2.anthropicBlockIndex == st.contentBlockIndex)

/-- Source `calculateInputTokens`:
`(usage?.prompt_tokens ?? 0) - (usage?.prompt_tokens_details?.cached_tokens ?? 0)`. -/
def calculateInputTokens (chunk : ChatCompletionChunk) : Int :=
  (((chunk.usage.bind Usage.prompt_tokens).getD 0 : Nat) : Int)
    - (((chunk.usage.bind Usage.cached_tokens).getD 0 : Nat) : Int)

/-- Source `getCacheReadTokens`: the optional `cache_read_input_tokens`
field. -/
def getCacheReadTokens (chunk : ChatCompletionChunk) : Option Nat :=
  chunk.usage.bind Usage.cached_tokens

/-- Source `createMessageStartEvent`. -/
def createMessageStartEvent (chunk : ChatCompletionChunk) :
    AnthropicStreamEventData :=
  AnthropicStreamEventData.message_start chunk.id chunk.model
    (calculateInputTokens chunk) 0 (getCacheReadTokens chunk)

/-- Source `closeContentBlock`: emit `content_block_stop` for the current
index, advance the index and mark the block closed. -/
def closeContentBlock (st : AnthropicStreamState) :
    AnthropicStreamEventData × AnthropicStreamState :=
  (AnthropicStreamEventData.content_block_stop st.contentBlockIndex,
   { st with contentBlockIndex := st.contentBlockIndex + 1,
             contentBlockOpen := false })

/-- Source `handleTextContent`: close an open tool block, open a text
block when none is open, then emit the text delta. -/
def handleTextContent (st : AnthropicStreamState) (content : String) :
    List AnthropicStreamEventData × AnthropicStreamState :=
  let r1 := if isToolBlockOpen st then
      ([(closeContentBlock st).1], (closeContentBlock st).2)
    else ([], st)
  let r2 := if r1.2.contentBlockOpen = false then
      ([AnthropicStreamEventData.content_block_start r1.2.contentBlockIndex
          (ContentBlock.text "")],
       { r1.2 with contentBlockOpen := true })
    else ([], r1.2)
  (r1.1 ++ r2.1
    ++ [AnthropicStreamEventData.content_block_delta r2.2.contentBlockIndex
          (DeltaBody.text_delta content)],
   r2.2)

/-- Source `handleNewToolCall`: close any open block, record the mapping
from the upstream position to the fresh block index, and open the
tool-use block. -/
def handleNewToolCall (st : AnthropicStreamState) (toolCallIndex : Nat)
    (toolCallId toolCallName : String) :
    List AnthropicStreamEventData × AnthropicStreamState :=
  let r1 := if st.contentBlockOpen then
      ([(closeContentBlock st).1], (closeContentBlock st).2)
    else ([], st)
  let anthropicBlockIndex := r1.2.contentBlockIndex
  (r1.1
    ++ [AnthropicStreamEventData.content_block_start anthropicBlockIndex
          (ContentBlock.tool_use toolCallId toolCallName)],
   { r1.2 with
      toolCalls := tcSet toolCallIndex
        { id := toolCallId, name := toolCallName,
          anthropicBlockIndex := anthropicBlockIndex } r1.2.toolCalls,
      contentBlockOpen := true })

/-- Source `handleToolCallArguments`: an incremental input event addressed
to the recorded block index; a delta for an unknown position is dropped. -/
def handleToolCallArguments (st : AnthropicStreamState) (toolCallIndex : Nat)
    (args : String) : List AnthropicStreamEventData :=
  match tcGet toolCallIndex st.toolCalls with
  | none => []
  | some info =>
    [AnthropicStreamEventData.content_block_delta info.anthropicBlockIndex
      (DeltaBody.input_json_delta args)]

/-- Source `handleFinishReason`: close an open block without advancing the
index, then emit the terminal `message_delta` and `message_stop`. -/
def handleFinishReason (chunk : ChatCompletionChunk)
    (st : AnthropicStreamState) (finishReason : FinishReason) :
    List AnthropicStreamEventData × AnthropicStreamState :=
  let r1 := if st.contentBlockOpen then
      ([AnthropicStreamEventData.content_block_stop st.contentBlockIndex],
       { st with contentBlockOpen := false })
    else ([], st)
  (r1.1
    ++ [AnthropicStreamEventData.message_delta
          (mapOpenAIStopReasonToAnthropic finishReason)
          (calculateInputTokens chunk)
          ((chunk.usage.bind Usage.completion_tokens).getD 0)
          (getCacheReadTokens chunk),
        AnthropicStreamEventData.message_stop],
   r1.2)

/-- The guard `toolCall.id && toolCall.function?.name` (JS truthiness:
both present and non-empty), yielding the id and name it binds. -/
def toolCallStart? (tc : ToolCallDelta) : Option (String × String) :=
  match tc.id, tc.function with
  | some i, some f =>
    match f.name with
    | some n => if i.isEmpty = false && n.isEmpty = false
        then some (i, n) else none
    | none => none
  | _, _ => none

/-- The guard `toolCall.function?.arguments` (present and non-empty). -/
def toolCallArgs? (tc : ToolCallDelta) : Option String :=
  match tc.function with
  | some f =>
    match f.arguments with
    | some a => if a.isEmpty = false then some a else none
    | none => none
  | none => none

/-- The `for (const toolCall of delta.tool_calls)` loop. -/
def processToolCalls :
    AnthropicStreamState → List ToolCallDelta →
      List AnthropicStreamEventData × AnthropicStreamState
  | st, [] => ([], st)
  | st, tc :: rest =>
    let r1 := match toolCallStart? tc with
      | some pr => handleNewToolCall st tc.index pr.1 pr.2
      | none => ([], st)
    let evs2 := match toolCallArgs? tc with
      | some a => handleToolCallArguments r1.2 tc.index a
      | none => []
    let r3 := processToolCalls r1.2 rest
    (r1.1 ++ (evs2 ++ r3.1), r3.2)

/-- The `if (!state.messageStartSent)` block of the translator. -/
def msgStartStep (chunk : ChatCompletionChunk) (st : AnthropicStreamState) :
    List AnthropicStreamEventData × AnthropicStreamState :=
  if st.messageStartSent = false then
    ([createMessageStartEvent chunk], { st with messageStartSent := true })
  else ([], st)

/-- The `if (delta.content)` block of the translator. -/
def textStep (choice : ChunkChoice) (st : AnthropicStreamState) :
    List AnthropicStreamEventData × AnthropicStreamState :=
  match choice.delta.content with
  | some c => if c.isEmpty = false then handleTextContent st c else ([], st)
  | none => ([], st)

/-- The `if (delta.tool_calls)` block of the translator. -/
def toolCallsStep (choice : ChunkChoice) (st : AnthropicStreamState) :
    List AnthropicStreamEventData × AnthropicStreamState :=
  match choice.delta.tool_calls with
  | some tcs => processToolCalls st tcs
  | none => ([], st)

/-- The `if (choice.finish_reason)` block of the translator. -/
def finishStep (chunk : ChatCompletionChunk) (choice : ChunkChoice)
    (st : AnthropicStreamState) :
    List AnthropicStreamEventData × AnthropicStreamState :=
  match choice.finish_reason with
  | some fr => handleFinishReason chunk st fr
  | none => ([], st)

/-- Source `translateChunkToAnthropicEvents`: empty `choices` is a no-op;
otherwise run the message-start, text, tool-call and finish blocks in
source order over `choices[0]`, threading the state. -/
def translateChunkToAnthropicEvents (chunk : ChatCompletionChunk)
    (st : AnthropicStreamState) :
    List AnthropicStreamEventData × AnthropicStreamState :=
  match chunk.choices with
  | [] => ([], st)
  | choice :: _ =>
    let r0 := msgStartStep chunk st
    let r1 := textStep choice r0.2
    let r2 := toolCallsStep choice r1.2
    let r3 := finishStep chunk choice r2.2
    (r0.1 ++ (r1.1 ++ (r2.1 ++ r3.1)), r3.2)

/-- Feed a whole chunk sequence through the translator, accumulating the
emitted events in order. -/
def translateAll :
    List ChatCompletionChunk → AnthropicStreamState →
      List AnthropicStreamEventData × AnthropicStreamState
  | [], st => ([], st)
  | c :: rest, st =>
    let r := translateChunkToAnthropicEvents c st
    let r2 := translateAll rest r.2
    (r.1 ++ r2.1, r2.2)

/-- The indices carried by the `content_block_start` events of a trace. -/
def startIndices : List AnthropicStreamEventData → List Nat
  | [] => []
  | AnthropicStreamEventData.content_block_start i _ :: rest =>
    i :: startIndices rest
  | _ :: rest => startIndices rest

/-- Scan a trace maintaining the open-block flag: `none` when a block is
opened while one is open or closed while none is. -/
def scanOpen : List AnthropicStreamEventData → Bool → Option Bool
  | [], b => some b
  | AnthropicStreamEventData.content_block_start _ _ :: rest, b =>
    if b then none else scanOpen rest true
  | AnthropicStreamEventData.content_block_stop _ :: rest, b =>
    if b then scanOpen rest false else none
  | _ :: rest, b => scanOpen rest b

/-- A trace is block-balanced when, starting with no block open, at most
one content block is ever open and no stop occurs with none open. -/
def blocksBalanced (evs : List AnthropicStreamEventData) : Bool :=
  (scanOpen evs false).isSome

/-- Whether a chunk carries a finish reason on its first choice. -/
def chunkHasFinish (c : ChatCompletionChunk) : Bool :=
  match c.choices with
  | [] => false
  | ch :: _ => ch.finish_reason.isSome

/-- C9.  A chunk with an empty `choices` array produces no events and
leaves every field of the stream state unchanged; in particular no
`message_start` is emitted even when it is the first chunk observed. -/
theorem translate_empty_choices_noop (chunk : ChatCompletionChunk)
    (st : AnthropicStreamState) (h : chunk.choices = []) :
    translateChunkToAnthropicEvents chunk st = ([], st) := by
  unfold translateChunkToAnthropicEvents
  rw [h]

/-- An upstream chunk with no choices (e.g. the trailing usage chunk). -/
def emptyChoicesChunk : ChatCompletionChunk :=
  { id := "u", model := "m", usage := none, choices := [] }

/-- Witness for C9 on a fresh connection. -/
theorem translate_empty_choices_noop_witness :
    emptyChoicesChunk.choices = []
    ∧ translateChunkToAnthropicEvents emptyChoicesChunk freshStreamState
        = ([], freshStreamState) :=
  ⟨rfl, translate_empty_choices_noop emptyChoicesChunk freshStreamState rfl⟩

/-- Upstream chunk carrying the text delta `"Hello"`. -/
def helloChunk : ChatCompletionChunk :=
  { id := "chatcmpl-1", model := "gpt", usage := none,
    choices := [{ delta := { content := some "Hello", tool_calls := none },
                  finish_reason := none }] }

/-- Upstream chunk carrying the text delta `" world"`. -/
def worldChunk : ChatCompletionChunk :=
  { id := "chatcmpl-1", model := "gpt", usage := none,
    choices := [{ delta := { content := some " world", tool_calls := none },
                  finish_reason := none }] }

/-- Upstream chunk carrying `finish_reason = "stop"` and no delta. -/
def stopChunk : ChatCompletionChunk :=
  { id := "chatcmpl-1", model := "gpt", usage := none,
    choices := [{ delta := { content := none, tool_calls := none },
                  finish_reason := some FinishReason.stop }] }

/-- C5.  The chunk sequence {text "Hello", text " world",
finish_reason=stop} from a fresh state yields exactly one `message_start`,
one text `content_block_start`, two `content_block_delta`, one
`content_block_stop`, one `message_delta` and one `message_stop`, in that
order and nothing else. -/
theorem translate_hello_world_stop_events :
    (translateAll [helloChunk, worldChunk, stopChunk] freshStreamState).1 =
      [AnthropicStreamEventData.message_start "chatcmpl-1" "gpt" 0 0 none,
       AnthropicStreamEventData.content_block_start 0 (ContentBlock.text ""),
       AnthropicStreamEventData.content_block_delta 0 (DeltaBody.text_delta "Hello"),
       AnthropicStreamEventData.content_block_delta 0 (DeltaBody.text_delta " world"),
       AnthropicStreamEventData.content_block_stop 0,
       AnthropicStreamEventData.message_delta AnthropicStopReason.end_turn 0 0 none,
       AnthropicStreamEventData.message_stop] := by
  rfl

/-- The smallest index the next `content_block_start` can carry: the
current index, one past it when a block is open (opening again first
forces a close, which advances the index). -/
def blockBound (st : AnthropicStreamState) : Nat :=
  if st.contentBlockOpen then st.contentBlockIndex + 1 else st.contentBlockIndex

/-- Trace obligations of one translator step: the open-flag scan tracks
the state's flag, start indices are strictly increasing, and every start
index lies between the bounds of the pre- and post-state. -/
structure StepOK (st : AnthropicStreamState)
    (evs : List AnthropicStreamEventData)
    (st2 : AnthropicStreamState) : Prop where
  scan : scanOpen evs st.contentBlockOpen = some st2.contentBlockOpen
  pw : List.Pairwise (fun a b : Nat => a < b) (startIndices evs)
  bounds : ∀ i ∈ startIndices evs, blockBound st ≤ i ∧ i < blockBound st2
  mono : blockBound st ≤ blockBound st2

/-- Weakened obligations for a trailing step (`handleFinishReason` may
lower the bound, but emits no further starts). -/
structure StepOKFin (st : AnthropicStreamState)
    (evs : List AnthropicStreamEventData)
    (st2 : AnthropicStreamState) : Prop where
  scan : scanOpen evs st.contentBlockOpen = some st2.contentBlockOpen
  pw : List.Pairwise (fun a b : Nat => a < b) (startIndices evs)
  lower : ∀ i ∈ startIndices evs, blockBound st ≤ i

theorem scanOpen_append (evs1 evs2 : List AnthropicStreamEventData) (b : Bool) :
    scanOpen (evs1 ++ evs2) b =
      match scanOpen evs1 b with
      | some b2 => scanOpen evs2 b2
      | none => none := by
  induction evs1 generalizing b with
  | nil => simp [scanOpen]
  | cons e rest ih =>
    cases e <;> cases b <;> simp [scanOpen, ih]

theorem startIndices_append (evs1 evs2 : List AnthropicStreamEventData) :
    startIndices (evs1 ++ evs2) = startIndices evs1 ++ startIndices evs2 := by
  induction evs1 with
  | nil => simp [startIndices]
  | cons e rest ih => cases e <;> simp [startIndices, ih]

theorem stepOK_nil (st : AnthropicStreamState) : StepOK st [] st :=
  ⟨rfl, List.Pairwise.nil,
   by intro i hi; simp [startIndices] at hi, le_refl _⟩

theorem stepOKFin_nil (st : AnthropicStreamState) : StepOKFin st [] st :=
  ⟨rfl, List.Pairwise.nil, by intro i hi; simp [startIndices] at hi⟩

theorem stepOK_append {st st1 st2 : AnthropicStreamState}
    {evs1 evs2 : List AnthropicStreamEventData}
    (h1 : StepOK st evs1 st1) (h2 : StepOK st1 evs2 st2) :
    StepOK st (evs1 ++ evs2) st2 := by
  refine ⟨?_, ?_, ?_, ?_⟩
  · rw [scanOpen_append, h1.scan]
    exact h2.scan
  · rw [startIndices_append]
    refine List.pairwise_append.mpr ⟨h1.pw, h2.pw, ?_⟩
    intro a ha b hb
    exact lt_of_lt_of_le (h1.bounds a ha).2 (h2.bounds b hb).1
  · intro i hi
    rw [startIndices_append] at hi
    rcases List.mem_append.mp hi with hi | hi
    · exact ⟨(h1.bounds i hi).1, lt_of_lt_of_le (h1.bounds i hi).2 h2.mono⟩
    · exact ⟨le_trans h1.mono (h2.bounds i hi).1, (h2.bounds i hi).2⟩
  · exact le_trans h1.mono h2.mono

theorem stepOK_finOK_append {st st1 st2 : AnthropicStreamState}
    {evs1 evs2 : List AnthropicStreamEventData}
    (h1 : StepOK st evs1 st1) (h2 : StepOKFin st1 evs2 st2) :
    StepOKFin st (evs1 ++ evs2) st2 := by
  refine ⟨?_, ?_, ?_⟩
  · rw [scanOpen_append, h1.scan]
    exact h2.scan
  · rw [startIndices_append]
    refine List.pairwise_append.mpr ⟨h1.pw, h2.pw, ?_⟩
    intro a ha b hb
    exact lt_of_lt_of_le (h1.bounds a ha).2 (h2.lower b hb)
  · intro i hi
    rw [startIndices_append] at hi
    rcases List.mem_append.mp hi with hi | hi
    · exact (h1.bounds i hi).1
    · exact le_trans h1.mono (h2.lower i hi)

theorem stepOK_msgStartStep (chunk : ChatCompletionChunk)
    (st : AnthropicStreamState) :
    StepOK st (msgStartStep chunk st).1 (msgStartStep chunk st).2 := by
  unfold msgStartStep
  by_cases h : st.messageStartSent = false
  · rw [if_pos h]
    exact ⟨rfl, List.Pairwise.nil,
      by intro i hi; simp [startIndices] at hi, le_refl _⟩
  · rw [if_neg h]
    exact stepOK_nil st

theorem stepOK_handleTextContent (st : AnthropicStreamState) (c : String) :
    StepOK st (handleTextContent st c).1 (handleTextContent st c).2 := by
  by_cases ht : isToolBlockOpen st = true
  · have hopen : st.contentBlockOpen = true := by
      unfold isToolBlockOpen at ht
      cases hb : st.contentBlockOpen
      · rw [hb] at ht
        simp at ht
      · rfl
    have hpair : handleTextContent st c =
        ([AnthropicStreamEventData.content_block_stop st.contentBlockIndex,
          AnthropicStreamEventData.content_block_start (st.contentBlockIndex + 1)
            (ContentBlock.text ""),
          AnthropicStreamEventData.content_block_delta (st.contentBlockIndex + 1)
            (DeltaBody.text_delta c)],
         { st with contentBlockIndex := st.contentBlockIndex + 1,
                   contentBlockOpen := true }) := by
      unfold handleTextContent closeContentBlock
      rw [if_pos ht]
      dsimp only
      simp
    rw [hpair]
    refine ⟨?_, ?_, ?_, ?_⟩
    · simp [scanOpen, hopen]
    · simp [startIndices, List.Pairwise.nil]
    · intro i hi
      simp only [startIndices] at hi
      rcases List.mem_singleton.mp hi with rfl
      simp [blockBound, hopen]
    · simp [blockBound, hopen]
  · by_cases hopen : st.contentBlockOpen = true
    · have hpair : handleTextContent st c =
          ([AnthropicStreamEventData.content_block_delta st.contentBlockIndex
              (DeltaBody.text_delta c)], st) := by
        unfold handleTextContent closeContentBlock
        rw [if_neg ht]
        dsimp only
        rw [hopen]
        simp
      rw [hpair]
      exact ⟨rfl, List.Pairwise.nil,
        by intro i hi; simp [startIndices] at hi, le_refl _⟩
    · have hfalse : st.contentBlockOpen = false := by
        revert hopen
        cases st.contentBlockOpen <;> simp
      have hpair : handleTextContent st c =
          ([AnthropicStreamEventData.content_block_start st.contentBlockIndex
              (ContentBlock.text ""),
            AnthropicStreamEventData.content_block_delta st.contentBlockIndex
              (DeltaBody.text_delta c)],
           { st with contentBlockOpen := true }) := by
        unfold handleTextContent closeContentBlock
        rw [if_neg ht]
        dsimp only
        rw [hfalse]
        simp
      rw [hpair]
      refine ⟨?_, ?_, ?_, ?_⟩
      · simp [scanOpen, hfalse]
      · simp [startIndices, List.Pairwise.nil]
      · intro i hi
        simp only [startIndices] at hi
        rcases List.mem_singleton.mp hi with rfl
        simp [blockBound, hfalse]
      · simp [blockBound, hfalse]

theorem stepOK_handleNewToolCall (st : AnthropicStreamState)
    (toolCallIndex : Nat) (toolCallId toolCallName : String) :
    StepOK st (handleNewToolCall st toolCallIndex toolCallId toolCallName).1
      (handleNewToolCall st toolCallIndex toolCallId toolCallName).2 := by
  by_cases hopen : st.contentBlockOpen = true
  · have hpair : handleNewToolCall st toolCallIndex toolCallId toolCallName =
        ([AnthropicStreamEventData.content_block_stop st.contentBlockIndex,
          AnthropicStreamEventData.content_block_start (st.contentBlockIndex + 1)
            (ContentBlock.tool_use toolCallId toolCallName)],
         { st with
            contentBlockIndex := st.contentBlockIndex + 1,
            toolCalls := tcSet toolCallIndex
              { id := toolCallId, name := toolCallName,
                anthropicBlockIndex := st.contentBlockIndex + 1 } st.toolCalls,
            contentBlockOpen := true }) := by
      unfold handleNewToolCall closeContentBlock
      rw [if_pos hopen]
      dsimp only
      simp
    rw [hpair]
    refine ⟨?_, ?_, ?_, ?_⟩
    · simp [scanOpen, hopen]
    · simp [startIndices, List.Pairwise.nil]
    · intro i hi
      simp only [startIndices] at hi
      rcases List.mem_singleton.mp hi with rfl
      simp [blockBound, hopen]
    · simp [blockBound, hopen]
  · have hfalse : st.contentBlockOpen = false := by
      revert hopen
      cases st.contentBlockOpen <;> simp
    have hpair : handleNewToolCall st toolCallIndex toolCallId toolCallName =
        ([AnthropicStreamEventData.content_block_start st.contentBlockIndex
            (ContentBlock.tool_use toolCallId toolCallName)],
         { st with
            toolCalls := tcSet toolCallIndex
              { id := toolCallId, name := toolCallName,
                anthropicBlockIndex := st.contentBlockIndex } st.toolCalls,
            contentBlockOpen := true }) := by
      unfold handleNewToolCall closeContentBlock
      rw [if_neg hopen]
      dsimp only
      simp
    rw [hpair]
    refine ⟨?_, ?_, ?_, ?_⟩
    · simp [scanOpen, hfalse]
    · simp [startIndices, List.Pairwise.nil]
    · intro i hi
      simp only [startIndices] at hi
      rcases List.mem_singleton.mp hi with rfl
      simp [blockBound, hfalse]
    · simp [blockBound, hfalse]

theorem stepOK_handleToolCallArguments (st : AnthropicStreamState)
    (toolCallIndex : Nat) (args : String) :
    StepOK st (handleToolCallArguments st toolCallIndex args) st := by
  unfold handleToolCallArguments
  cases tcGet toolCallIndex st.toolCalls with
  | none => exact stepOK_nil st
  | some info =>
    exact ⟨rfl, List.Pairwise.nil,
      by intro i hi; simp [startIndices] at hi, le_refl _⟩

theorem stepOK_processToolCalls :
    ∀ (tcs : List ToolCallDelta) (st : AnthropicStreamState),
      StepOK st (processToolCalls st tcs).1 (processToolCalls st tcs).2 := by
  intro tcs
  induction tcs with
  | nil =>
    intro st
    exact stepOK_nil st
  | cons tc rest ih =>
    intro st
    cases hs : toolCallStart? tc with
    | some pr =>
      cases ha : toolCallArgs? tc with
      | some a =>
        simp only [processToolCalls, hs, ha]
        exact stepOK_append (stepOK_handleNewToolCall st tc.index pr.1 pr.2)
          (stepOK_append (stepOK_handleToolCallArguments _ tc.index a) (ih _))
      | none =>
        simp only [processToolCalls, hs, ha]
        exact stepOK_append (stepOK_handleNewToolCall st tc.index pr.1 pr.2)
          (stepOK_append (stepOK_nil _) (ih _))
    | none =>
      cases ha : toolCallArgs? tc with
      | some a =>
        simp only [processToolCalls, hs, ha]
        exact stepOK_append (stepOK_nil st)
          (stepOK_append (stepOK_handleToolCallArguments st tc.index a) (ih _))
      | none =>
        simp only [processToolCalls, hs, ha]
        exact stepOK_append (stepOK_nil st)
          (stepOK_append (stepOK_nil st) (ih _))

theorem stepOK_textStep (choice : ChunkChoice) (st : AnthropicStreamState) :
    StepOK st (textStep choice st).1 (textStep choice st).2 := by
  unfold textStep
  cases choice.delta.content with
  | none => exact stepOK_nil st
  | some c =>
    dsimp only
    by_cases h : c.isEmpty = false
    · rw [if_pos h]
      exact stepOK_handleTextContent st c
    · rw [if_neg h]
      exact stepOK_nil st

theorem stepOK_toolCallsStep (choice : ChunkChoice) (st : AnthropicStreamState) :
    StepOK st (toolCallsStep choice st).1 (toolCallsStep choice st).2 := by
  unfold toolCallsStep
  cases choice.delta.tool_calls with
  | none => exact stepOK_nil st
  | some tcs => exact stepOK_processToolCalls tcs st

theorem stepOKFin_handleFinishReason (chunk : ChatCompletionChunk)
    (st : AnthropicStreamState) (fr : FinishReason) :
    StepOKFin st (handleFinishReason chunk st fr).1
      (handleFinishReason chunk st fr).2 := by
  unfold handleFinishReason
  by_cases h : st.contentBlockOpen = true
  · rw [if_pos h]
    refine ⟨?_, ?_, ?_⟩
    · simp [scanOpen, h]
    · simp [startIndices, List.Pairwise.nil]
    · intro i hi
      simp [startIndices] at hi
  · rw [if_neg h]
    have hf : st.contentBlockOpen = false := by
      revert h
      cases st.contentBlockOpen <;> simp
    refine ⟨?_, ?_, ?_⟩
    · simp [scanOpen, hf]
    · simp [startIndices, List.Pairwise.nil]
    · intro i hi
      simp [startIndices] at hi

theorem stepOKFin_finishStep (chunk : ChatCompletionChunk)
    (choice : ChunkChoice) (st : AnthropicStreamState) :
    StepOKFin st (finishStep chunk choice st).1 (finishStep chunk choice st).2 := by
  unfold finishStep
  cases choice.finish_reason with
  | none => exact stepOKFin_nil st
  | some fr => exact stepOKFin_handleFinishReason chunk st fr

theorem stepOKFin_translateChunk (c : ChatCompletionChunk)
    (st : AnthropicStreamState) :
    StepOKFin st (translateChunkToAnthropicEvents c st).1
      (translateChunkToAnthropicEvents c st).2 := by
  cases hch : c.choices with
  | nil =>
    simp only [translateChunkToAnthropicEvents, hch]
    exact stepOKFin_nil st
  | cons choice rest =>
    simp only [translateChunkToAnthropicEvents, hch]
    exact stepOK_finOK_append (stepOK_msgStartStep c st)
      (stepOK_finOK_append (stepOK_textStep choice _)
        (stepOK_finOK_append (stepOK_toolCallsStep choice _)
          (stepOKFin_finishStep c choice _)))

theorem stepOK_translateChunk_nofinish (c : ChatCompletionChunk)
    (st : AnthropicStreamState) (h : chunkHasFinish c = false) :
    StepOK st (translateChunkToAnthropicEvents c st).1
      (translateChunkToAnthropicEvents c st).2 := by
  cases hch : c.choices with
  | nil =>
    simp only [translateChunkToAnthropicEvents, hch]
    exact stepOK_nil st
  | cons choice rest =>
    have hfin : choice.finish_reason = none := by
      unfold chunkHasFinish at h
      rw [hch] at h
      dsimp only at h
      exact Option.not_isSome_iff_eq_none.mp (by simp [h])
    simp only [translateChunkToAnthropicEvents, hch, finishStep, hfin]
    exact stepOK_append (stepOK_msgStartStep c st)
      (stepOK_append (stepOK_textStep choice _)
        (stepOK_append (stepOK_toolCallsStep choice _) (stepOK_nil _)))

theorem stepOKFin_translateAll :
    ∀ (cs : List ChatCompletionChunk) (st : AnthropicStreamState),
      (∀ c ∈ cs.dropLast, chunkHasFinish c = false) →
      StepOKFin st (translateAll cs st).1 (translateAll cs st).2 := by
  intro cs
  induction cs with
  | nil =>
    intro st _
    exact stepOKFin_nil st
  | cons c rest ih =>
    intro st h
    cases rest with
    | nil =>
      simp only [translateAll, List.append_nil]
      exact stepOKFin_translateChunk c st
    | cons c2 rest2 =>
      have hc : chunkHasFinish c = false := by
        apply h
        rw [List.dropLast_cons₂]
        exact List.mem_cons_self _ _
      have hrest : ∀ x ∈ (c2 :: rest2).dropLast, chunkHasFinish x = false := by
        intro x hx
        apply h
        rw [List.dropLast_cons₂]
        exact List.mem_cons_of_mem _ hx
      simp only [translateAll]
      exact stepOK_finOK_append (stepOK_translateChunk_nofinish c st hc)
        (ih _ hrest)

/-- C6 amended.  For every chunk sequence in which no chunk follows a
chunk carrying a finish reason, the emitted trace is block-balanced (at
most one content block open at any point, every open implicitly closed
before the next one opens) and the `content_block_start` indices are
strictly increasing over the connection, so a closed block index is never
reused or reopened. -/
theorem stream_block_invariants (cs : List ChatCompletionChunk)
    (h : ∀ c ∈ cs.dropLast, chunkHasFinish c = false) :
    blocksBalanced (translateAll cs freshStreamState).1 = true
    ∧ List.Pairwise (fun a b : Nat => a < b)
        (startIndices (translateAll cs freshStreamState).1) := by
  have hs := stepOKFin_translateAll cs freshStreamState h
  refine ⟨?_, hs.pw⟩
  have h2 : scanOpen (translateAll cs freshStreamState).1 false
      = some (translateAll cs freshStreamState).2.contentBlockOpen := hs.scan
  unfold blocksBalanced
  rw [h2]
  rfl

/-- Witness for the amended C6 on the Hello / world / stop trace. -/
theorem stream_block_invariants_witness :
    blocksBalanced
        (translateAll [helloChunk, worldChunk, stopChunk] freshStreamState).1
      = true
    ∧ List.Pairwise (fun a b : Nat => a < b)
        (startIndices
          (translateAll [helloChunk, worldChunk, stopChunk] freshStreamState).1) :=
  stream_block_invariants [helloChunk, worldChunk, stopChunk]
    (by
      intro c hc
      simp only [List.dropLast_cons₂, List.dropLast_single] at hc
      rcases List.mem_cons.mp hc with rfl | hc2
      · rfl
      · rcases List.mem_singleton.mp hc2 with rfl
        rfl)

/-- Chunk with a text delta and a finish reason together. -/
def finishTextChunk : ChatCompletionChunk :=
  { id := "c1", model := "m", usage := none,
    choices := [{ delta := { content := some "a", tool_calls := none },
                  finish_reason := some FinishReason.stop }] }

/-- Text chunk arriving after the finish chunk. -/
def postFinishChunk : ChatCompletionChunk :=
  { id := "c2", model := "m", usage := none,
    choices := [{ delta := { content := some "b", tool_calls := none },
                  finish_reason := none }] }

/-- C6 counterexample: feeding a text chunk after a finish-reason chunk
reopens block index 0, because `handleFinishReason` closes the block
without advancing `contentBlockIndex`; the two `content_block_start`
events of this trace both carry index 0, so the indices are not strictly
increasing and a closed index is reused. -/
theorem stream_block_index_counterexample :
    startIndices
        (translateAll [finishTextChunk, postFinishChunk] freshStreamState).1
      = [0, 0]
    ∧ ¬ List.Pairwise (fun a b : Nat => a < b)
        (startIndices
          (translateAll [finishTextChunk, postFinishChunk] freshStreamState).1) := by
  have h0 : startIndices
      (translateAll [finishTextChunk, postFinishChunk] freshStreamState).1
      = [0, 0] := by rfl
  refine ⟨h0, ?_⟩
  rw [h0]
  intro hp
  rcases List.pairwise_cons.mp hp with ⟨hlt, _⟩
  exact absurd (hlt 0 (List.mem_singleton.mpr rfl)) (lt_irrefl 0)

end StreamTranslation
